import Mathlib

/-!
# A verification development for the `eventactions` declarative DOM action library

This file gives a shallow embedding of the library's core algorithms:

* the string helpers (`camelToSnakeCase`, `sanitizeValue`, a model of JS
  `parseFloat`),
* the attribute reader `getElementOptions`,
* the per-step action executor `executeAction` (split into a pure decision
  phase `execDecide` and a DOM-effect phase `execApply`; the source computes
  the returned value, all dialogs and all log messages without ever reading
  the DOM, and performs its DOM writes at a single point, so this split is a
  faithful factoring of the original function),
* the event-driven action-sequence interpreter `actionHandler`,
* the attachment bookkeeping `addEventActions` / `removeEventActions`,
* the `data-class-*` sibling family's delay parsing.

Modelling conventions:
* DOM elements are identified by `Nat` ids; the document is a map
  `Dom : Nat → Elem`.  `innerHTML` and `textContent` are modelled as
  independent fields (each step uses exactly one accessor).
* Selector queries, the opaque expression evaluator (`eval` of attribute
  text) and the confirm dialog are abstracted into an environment `Env`:
  a query may "throw" (`none`), an expression evaluates to a truthy/falsy
  value or throws, and a confirm dialog is accepted or cancelled.
* Option values that reach the executor through attributes are either
  absent (JS `null`) or strings; the embedding uses a dynamic value type
  `JsVal` mirroring the JS records.  Function-valued options are reachable
  only through the programmatic API and are outside this model.
-/

/-! ## JS-style dynamic values -/

/-- An exact (unreduced) rational value `num / den`; every construction in
this file keeps `den` positive (powers of ten from `parseFloat`, times
integer multipliers).  The embedding never compares numbers produced by
different computations, so representations need not be normalised. -/
structure JsDec where
  num : Int
  den : Nat
deriving DecidableEq, Repr

/-- The integer `n` as a `JsDec`. -/
def JsDec.ofInt (n : Int) : JsDec := ⟨n, 1⟩

/-- A JS number as produced by `parseFloat`: NaN, signed infinity, or a
finite value (exact; the claims under study never depend on binary
floating-point rounding). -/
inductive JsNum where
  | nan
  | inf (neg : Bool)
  | num (v : JsDec)
deriving DecidableEq, Repr

/-- Dynamic values stored in option records: `null`/`undefined` (collapsed;
where the source distinguishes them the embedding consults `JsObj.find?`),
booleans, numbers and strings. -/
inductive JsVal where
  | vNull
  | vBool (b : Bool)
  | vNum (n : JsNum)
  | vStr (s : String)
deriving DecidableEq, Repr

/-- JS truthiness. -/
def JsVal.truthy : JsVal → Bool
  | .vNull => false
  | .vBool b => b
  | .vNum .nan => false
  | .vNum (.inf _) => true
  | .vNum (.num v) => if v.num = 0 then false else true
  | .vStr s => if s = "" then false else true

/-- JS string coercion (the number case approximates JS number formatting;
it is only reached for values that cannot arise from attributes). -/
def JsNum.toDisplay : JsNum → String
  | .nan => "NaN"
  | .inf neg => if neg then "-Infinity" else "Infinity"
  | .num v => toString v.num ++ "/" ++ toString v.den

/-- JS `String(v)` coercion. -/
def jsToString : JsVal → String
  | .vNull => "null"
  | .vBool b => if b then "true" else "false"
  | .vNum n => n.toDisplay
  | .vStr s => s

/-- The JS idiom `v || null` used throughout `executeAction`. -/
def orNull (v : JsVal) : JsVal := if v.truthy then v else JsVal.vNull

/-- A JS object with string keys, in insertion order (the records built by
`getElementOptions` and `Object.assign`). -/
abbrev JsObj := List (String × JsVal)

/-- Property lookup distinguishing a missing key (`undefined`). -/
def JsObj.find? (o : JsObj) (k : String) : Option JsVal :=
  (List.find? (fun p => p.1 = k) o).map (fun p => p.2)

/-- Property lookup collapsing a missing key to `null` (sound wherever the
source applies `|| null` or compares with `=== null` on a merged record,
which always carries every schema key). -/
def JsObj.get (o : JsObj) (k : String) : JsVal :=
  (JsObj.find? o k).getD JsVal.vNull

/-- `Object.assign({}, base, overlay)`: every key of `base` in order, with
`overlay`'s value where present, then `overlay`'s extra keys. -/
def jsAssign (base overlay : JsObj) : JsObj :=
  (base.map (fun kv =>
    match List.find? (fun p => p.1 = kv.1) overlay with
    | some p => (kv.1, p.2)
    | none => kv)) ++
  overlay.filter (fun p => (List.find? (fun q => q.1 = p.1) base).isNone)

/-! ## String helpers (`dataScrollTarget.js`) -/

/-- The whitespace characters recognised by the embedding (ASCII subset of
the JS `\s` class; class names and option text never contain the exotic
Unicode spaces). -/
def isJsSpace (c : Char) : Bool :=
  c = ' ' || c = '\t' || c = '\n' || c = '\r' || c = '\x0b' || c = '\x0c'

/-- JS `String.prototype.trim`. -/
def jsTrim (s : String) : String :=
  String.mk (((s.data.dropWhile isJsSpace).reverse.dropWhile isJsSpace).reverse)

/-- `sanitizeValue`: non-strings pass through, strings are trimmed and an
empty result becomes `null`. -/
def sanitizeValue : JsVal → JsVal
  | .vNull => .vNull
  | .vStr s => let t := jsTrim s; if t = "" then .vNull else .vStr t
  | v => v

/-- Step 1 of `camelToSnakeCase`: `str.replace(/([0-9]+)/g, g => "-" + g)`
— a dash in front of every maximal digit run.  The flag records whether the
previous character was a digit. -/
def sepDigitsAux : Bool → List Char → List Char
  | _, [] => []
  | prevDigit, c :: cs =>
    if c.isDigit then
      (if prevDigit then [c] else ['-', c]) ++ sepDigitsAux true cs
    else c :: sepDigitsAux false cs

/-- Step 2: `str.replace(/[A-Z]/g, g => "-" + g.toLowerCase())`. -/
def lowerDash : List Char → List Char
  | [] => []
  | c :: cs => (if 'A' ≤ c && c ≤ 'Z' then ['-', c.toLower] else [c]) ++ lowerDash cs

/-- Step 3: collapse every run of two or more dashes to one dash (the flag
records whether the previous character was a dash). -/
def collapseDashAux : Bool → List Char → List Char
  | _, [] => []
  | prevDash, c :: cs =>
    if c = '-' then
      (if prevDash then [] else ['-']) ++ collapseDashAux true cs
    else c :: collapseDashAux false cs

/-- Step 3, at the start of the string. -/
def collapseDash (l : List Char) : List Char :=
  collapseDashAux false l

/-- `camelToSnakeCase`: digit runs become their own words, camel humps are
dashed and lower-cased, repeated dashes collapse, edge dashes are stripped. -/
def camelToSnakeCase (s : String) : String :=
  String.mk ((((collapseDash (lowerDash (sepDigitsAux false s.data))).dropWhile
    (fun c => c = '-')).reverse.dropWhile (fun c => c = '-')).reverse)

/-! ## `parseFloat` -/

/-- Numeric value of a digit string. -/
def digitsVal (ds : List Char) : Nat :=
  ds.foldl (fun n c => n * 10 + (c.toNat - '0'.toNat)) 0

/-- JS `parseFloat`: longest numeric prefix after optional whitespace and
sign; `Infinity` recognised; no parse at all gives NaN. -/
def parseFloat (s : String) : JsNum :=
  let cs := s.data.dropWhile isJsSpace
  let sign : Bool × List Char :=
    match cs with
    | '-' :: r => (true, r)
    | '+' :: r => (false, r)
    | _ => (false, cs)
  let neg := sign.1
  let cs := sign.2
  if List.isPrefixOf ['I', 'n', 'f', 'i', 'n', 'i', 't', 'y'] cs then
    JsNum.inf neg
  else
    let intPart := cs.span Char.isDigit
    let a := intPart.1
    let fracPart : List Char × List Char :=
      match intPart.2 with
      | '.' :: r => r.span Char.isDigit
      | _ => ([], intPart.2)
    let b := fracPart.1
    if a = [] && b = [] then JsNum.nan
    else
      let exp : Int :=
        match fracPart.2 with
        | 'e' :: r =>
          let es : Bool × List Char :=
            match r with
            | '-' :: t => (true, t)
            | '+' :: t => (false, t)
            | _ => (false, r)
          let ed := (es.2.span Char.isDigit).1
          if ed = [] then 0
          else if es.1 then -(digitsVal ed : Int) else (digitsVal ed : Int)
        | 'E' :: r =>
          let es : Bool × List Char :=
            match r with
            | '-' :: t => (true, t)
            | '+' :: t => (false, t)
            | _ => (false, r)
          let ed := (es.2.span Char.isDigit).1
          if ed = [] then 0
          else if es.1 then -(digitsVal ed : Int) else (digitsVal ed : Int)
        | _ => 0
      let mantNum : Int := (digitsVal a : Int) * (10 : Int) ^ b.length + (digitsVal b : Int)
      let mantDen : Nat := 10 ^ b.length
      let v : JsDec :=
        if 0 ≤ exp then ⟨mantNum * (10 : Int) ^ exp.toNat, mantDen⟩
        else ⟨mantNum, mantDen * 10 ^ (-exp).toNat⟩
      JsNum.num (if neg then ⟨-v.num, v.den⟩ else v)

/-! ## The attribute reader `getElementOptions` -/

/-- An element's attribute list (full attribute names, `data-` included),
standing for both views the source consults (`el.dataset` and
`el.getAttribute`, which agree on these dash-containing names). -/
abbrev AttrList := List (String × String)

/-- `el.getAttribute(name)`. -/
def getAttr (attrs : AttrList) (name : String) : Option String :=
  (List.find? (fun p => p.1 = name) attrs).map (fun p => p.2)

/-- Type-directed coercion of a present attribute's text, driven by the
schema default's runtime type. -/
def coerceByDefault (dflt : JsVal) (text : String) : JsVal :=
  match dflt with
  | .vBool _ => .vBool (text.toLower = "true")
  | .vNum _ => .vNum (parseFloat text)
  | _ => .vStr text

/-- The naming prefix string: `prefix ? camelToSnakeCase(prefix) + "-" : ""`. -/
def readerPrefixStr (pfx : String) : String :=
  if pfx ≠ "" then camelToSnakeCase pfx ++ "-" else ""

/-- `getElementOptions(el, defaultOptions, prefix, onlyExisting)`: per schema
key, look up `data-<prefix>-<dash-case-key>`, coerce by the default's type,
or fall back to the default / omit the key.  The source builds the record by
assigning into an initially empty object inside a `for` loop; the embedding
mirrors this with a left fold over the schema.  The function is total: it
never throws. -/
def getElementOptions (attrs : AttrList) (defaults : JsObj)
    (pfx : String) (onlyExisting : Bool) : JsObj :=
  defaults.foldl (fun acc kv =>
    match getAttr attrs ("data-" ++ (readerPrefixStr pfx ++ camelToSnakeCase kv.1)) with
    | some v => acc ++ [(kv.1, coerceByDefault kv.2 v)]
    | none => if onlyExisting then acc else acc ++ [(kv.1, kv.2)]) []

/-- The option reader exactly as the specification words it: for each schema
key, a present attribute is coerced using the default's declared type (text
lower-cased and compared with "true" for boolean defaults, parsed as a
floating-point number for numeric defaults, verbatim text otherwise); an
absent attribute yields the schema default when `onlyExisting` is false and
omits the key when it is true.  Written from the spec for the refinement
claim C7. -/
def getElementOptionsSpec (attrs : AttrList) (defaults : JsObj)
    (pfx : String) (onlyExisting : Bool) : JsObj :=
  defaults.filterMap (fun kv =>
    match getAttr attrs ("data-" ++ (readerPrefixStr pfx ++ camelToSnakeCase kv.1)) with
    | some v =>
      some (kv.1,
        match kv.2 with
        | .vBool _ => .vBool (v.toLower = "true")
        | .vNum _ => .vNum (parseFloat v)
        | _ => .vStr v)
    | none => if onlyExisting then none else some (kv.1, kv.2))

/-! ## The `data-class-*` sibling family: delay parsing -/

/-- JS `String.prototype.endsWith` (total, on the character lists). -/
def jsEndsWith (s sfx : String) : Bool :=
  List.isSuffixOf sfx.data s.data

/-- Delay parsing of the `data-class-delay` attribute: trim, then the unit
suffix test — `endsWith("s")` first (multiplier 1000), `endsWith("ms")`
second (note the first test already matches every value ending in "ms"),
else bare milliseconds — then `parseFloat` times the multiplier, and a NaN
or negative result is reset to 0 with a warning.  Returns the delay in
milliseconds and whether the warning fired. -/
def dataClassDelay (attr : Option String) : JsNum × Bool :=
  match attr with
  | none => (JsNum.num (JsDec.ofInt 0), false)
  | some raw =>
    let d0 := jsTrim raw
    let cut : Nat × String :=
      if jsEndsWith d0 "s" then (1000, jsTrim (String.mk d0.data.dropLast))
      else if jsEndsWith d0 "ms" then (1, jsTrim (String.mk d0.data.dropLast.dropLast))
      else (1, jsTrim d0)
    let scaled : JsNum :=
      match parseFloat cut.2 with
      | JsNum.nan => JsNum.nan
      | JsNum.inf b => JsNum.inf b
      | JsNum.num v => JsNum.num ⟨v.num * (cut.1 : Int), v.den⟩
    let bad : Bool :=
      match scaled with
      | JsNum.nan => true
      | JsNum.inf b => b
      | JsNum.num v => decide (v.num < 0)
    if bad then (JsNum.num (JsDec.ofInt 0), true) else (scaled, false)

/-! ## Attachment / detachment bookkeeping -/

/-- JS object property assignment on an association list: update in place or
append. -/
def setKey {α : Type} : List (String × α) → String → α → List (String × α)
  | [], k, v => [(k, v)]
  | (k', v') :: t, k, v => if k' = k then (k, v) :: t else (k', v') :: setKey t k v

/-- JS property read returning `undefined` for a missing key. -/
def getKey? {α : Type} (l : List (String × α)) (k : String) : Option α :=
  (List.find? (fun p => p.1 = k) l).map (fun p => p.2)

/-- JS `delete obj[k]`. -/
def delKey {α : Type} (l : List (String × α)) (k : String) : List (String × α) :=
  l.filter (fun p => p.1 ≠ k)

/-- The `el._eventActions` record: per event type the original inline
handler (`none` models an explicitly stored `null`), plus the `handlers`
sub-object holding the installed listener references. -/
structure EARec where
  saved : List (String × Option Nat)
  handlers : Option (List (String × Nat))
deriving DecidableEq, Repr

/-- Per-element attachment state: the inline `on<event>` handler slots (a
missing key is a `null` slot), the `_eventActions` bookkeeping record, and
the listeners registered via `addEventListener` in registration order.
Handlers are identified by numeric ids. -/
structure AttachState where
  onHandlers : List (String × Nat)
  ea : Option EARec
  listeners : List (String × Nat)
deriving DecidableEq, Repr

/-- `addEventActions(el, eventType, prefix)` restricted to its bookkeeping
effect (the attribute scanning of the installed listener is modelled by
`actionHandler` below).  `handlerId` identifies the freshly created listener
closure. -/
def addEventActions (st : AttachState) (eventType : String) (handlerId : Nat) :
    AttachState :=
  let alreadyGuard : Bool :=
    match st.ea with
    | some r =>
      match getKey? r.saved eventType with
      | some (some _) => true
      | _ => false
    | none => false
  if alreadyGuard then st
  else
    let r := st.ea.getD ⟨[], none⟩
    let orig := getKey? st.onHandlers eventType
    let r1 : EARec := ⟨setKey r.saved eventType orig, r.handlers⟩
    let onH := delKey st.onHandlers eventType
    let r2 : EARec := ⟨r1.saved, some (setKey (r1.handlers.getD []) eventType handlerId)⟩
    ⟨onH, some r2, st.listeners ++ [(eventType, handlerId)]⟩

/-- `removeEventActions(el, eventType)` for an explicitly given event type
(the `eventType = null` form iterates this branch over the recorded keys and
is not needed by the claims under study). -/
def removeEventActionsAt (st : AttachState) (eventType : String) : AttachState :=
  match st.ea with
  | none => st
  | some r =>
    match getKey? r.saved eventType with
    | none => st
    | some none => st
    | some (some orig) =>
      let afterListener : List (String × Nat) × Option (List (String × Nat)) :=
        match r.handlers with
        | some hs =>
          match getKey? hs eventType with
          | some hid => (List.erase st.listeners (eventType, hid), some (delKey hs eventType))
          | none => (st.listeners, some hs)
        | none => (st.listeners, none)
      let onH := setKey st.onHandlers eventType orig
      let saved2 := delKey r.saved eventType
      let ea2 : Option EARec :=
        match afterListener.2 with
        | some hs => if hs.isEmpty then none else some ⟨saved2, some hs⟩
        | none => some ⟨saved2, none⟩
      ⟨onH, ea2, afterListener.1⟩

/-! ## DOM model and environment -/

/-- A DOM element: class list (a `DOMTokenList`: ordered, duplicate-free by
construction of its operations), the two content accessors (modelled as
independent fields; every step uses exactly one of them), and the scroll
geometry. -/
structure Elem where
  classes : List String
  innerHTML : String
  textContent : String
  scrollTop : Int
  scrollLeft : Int
  scrollHeight : Int
  scrollWidth : Int
deriving DecidableEq, Repr

/-- The document: a map from element id to element. -/
abbrev Dom := Nat → Elem

/-- Point update of the document. -/
def updElem (d : Dom) (i : Nat) (f : Elem → Elem) : Dom :=
  fun j => if j = i then f (d j) else d j

/-- Outcome of evaluating a condition/expression string: the truthiness of
the final value of the source's eval-then-maybe-call chain, or a thrown
exception. -/
inductive EvalOutcome where
  | ok (truthy : Bool)
  | err
deriving DecidableEq, Repr

/-- The opaque collaborators of the interpreter: selector queries (`none`
models a selector-syntax exception, caught and logged by the source),
expression evaluation, `execute` exceptions, and the user's answer to a
confirm dialog (keyed by the message). -/
structure Env where
  query : String → Option (List Nat)
  queryChildren : Nat → String → Option (List Nat)
  evalCond : String → EvalOutcome
  execThrows : String → Bool
  confirmOk : String → Bool

/-- Observable events of a run, in chronological order: console warnings
and errors, dialogs, execute invocations, the delay suspension, splash
lifecycle and the native-handler replay. -/
inductive Ev where
  | warnSelector (sel : String)
  | errCondition (s : String)
  | errConditionAction (s : String)
  | confirmShown (msg : String)
  | execRun (s : String)
  | errExecute (s : String)
  | warnClassConflict
  | warnContentMethod (m : String)
  | warnScrollTo (v : String)
  | delayed (ms : JsNum)
  | ackShown (msg : String)
  | splashShown (content : JsVal)
  | splashHidden
  | nativeHandlerRun
deriving DecidableEq, Repr

/-- `DEFAULT_OPTIONS_ACTION`. -/
def defaultActionOptions : JsObj := [
  ("condition", JsVal.vNull),
  ("conditionAction", JsVal.vNull),
  ("confirm", JsVal.vNull),
  ("confirmAcceptText", JsVal.vStr "OK"),
  ("confirmCancelText", JsVal.vStr "Cancel"),
  ("execute", JsVal.vNull),
  ("target", JsVal.vNull),
  ("targetChildren", JsVal.vNull),
  ("classAdd", JsVal.vNull),
  ("classRemove", JsVal.vNull),
  ("classToggle", JsVal.vNull),
  ("classSet", JsVal.vNull),
  ("scrollTo", JsVal.vNull),
  ("contentMethod", JsVal.vStr "innerHTML"),
  ("contentSet", JsVal.vNull),
  ("contentAppend", JsVal.vNull),
  ("contentPrepend", JsVal.vNull),
  ("contentClear", JsVal.vNull),
  ("delay", JsVal.vNum (JsNum.num (JsDec.ofInt 0))),
  ("acknowledge", JsVal.vNull),
  ("acknowledgeButton", JsVal.vStr "OK"),
  ("splash", JsVal.vNull)]

/-! ## `executeAction`: decision phase

The source's `executeAction` computes its returned value, every dialog and
every log message without reading the DOM, and performs all of its DOM
writes at one point (`applyClasses(); applyContentChanges(); applyScroll()`).
The embedding therefore splits it into the pure decision `execDecide`
(result, event trace, and the effect payload of the three closures) and the
DOM-write phase `execApply`; `executeAction` is their composition. -/

/-- The result value of `executeAction`'s promise: `undefined` (the bare
`return` on an invalid content method) or a boolean. -/
inductive JsRet where
  | undef
  | boolean (b : Bool)
deriving DecidableEq, Repr

/-- Truthiness of the result, as tested by `while (conditionMet)`. -/
def JsRet.truthy : JsRet → Bool
  | .undef => false
  | .boolean b => b

/-- Settlement of the `executeAction` promise: a value, or a rejection (the
`scrollTo = null` assignment to a `const` throws a `TypeError` on an invalid
scroll keyword). -/
inductive DecRes where
  | ret (r : JsRet)
  | thrown
deriving DecidableEq, Repr

/-- The payload of the three effect closures `applyClasses`,
`applyContentChanges` and `applyScroll`. -/
structure EffectPlan where
  targets : List Nat
  classSet : List String
  classToggle : List String
  classAdd : List String
  classRemove : List String
  contentMethod : String
  contentClear : Bool
  contentSet : Option String
  contentAppend : Option String
  contentPrepend : Option String
  scrollTo : Option String
deriving DecidableEq, Repr

/-- Decision-phase output: promise settlement, event trace, and the effect
payload (`none` when the function exited before the apply point). -/
structure Decision where
  res : DecRes
  tr : List Ev
  plan : Option EffectPlan
deriving DecidableEq, Repr

/-- Tokenizer for class-list splitting: maximal runs of non-whitespace
characters (`cur` holds the current token, reversed). -/
def splitTokens : List Char → List Char → List String
  | [], cur => if cur.isEmpty then [] else [String.mk cur.reverse]
  | c :: cs, cur =>
    if isJsSpace c then
      (if cur.isEmpty then [] else [String.mk cur.reverse]) ++ splitTokens cs []
    else splitTokens cs (c :: cur)

/-- `classes.split(/\s+/).filter(cls => cls.trim() !== "")`: splitting on
whitespace runs and dropping empty fragments leaves exactly the maximal
non-whitespace runs. -/
def splitClasses (s : String) : List String :=
  splitTokens s.data []

/-- A class-list option value to its token list (`x ? x.split(..) : []`). -/
def classValToList : JsVal → List String
  | .vStr s => splitClasses s
  | _ => []

/-- The four parsed class lists of a step: (add, remove, toggle, set). -/
def classListsOf (o : JsObj) :
    List String × List String × List String × List String :=
  (classValToList (sanitizeValue (orNull (JsObj.get o "classAdd"))),
   classValToList (sanitizeValue (orNull (JsObj.get o "classRemove"))),
   classValToList (sanitizeValue (orNull (JsObj.get o "classToggle"))),
   classValToList (sanitizeValue (orNull (JsObj.get o "classSet"))))

/-- `xs.filter(c => ys.includes(c)).length > 0`. -/
def listsIntersect (xs ys : List String) : Bool :=
  !(xs.filter (fun c => ys.contains c)).isEmpty

/-- The add/remove/toggle disjointness violation tested by the source. -/
def classConflictB (o : JsObj) : Bool :=
  let ls := classListsOf o
  listsIntersect ls.1 ls.2.1 || listsIntersect ls.1 ls.2.2.1 ||
    listsIntersect ls.2.1 ls.2.2.1

/-- Does the sequence-level `condition` gate the step off (evaluates falsy
or throws)?  A missing condition, and a truthy non-string value (which JS
`eval` returns unchanged), pass. -/
def seqCondBlocks (env : Env) (o : JsObj) : Bool :=
  match sanitizeValue (orNull (JsObj.get o "condition")) with
  | .vStr s => match env.evalCond s with | .ok true => false | _ => true
  | _ => false

/-- Does the step-level `conditionAction` make the step skip itself? -/
def actCondSkips (env : Env) (o : JsObj) : Bool :=
  match sanitizeValue (orNull (JsObj.get o "conditionAction")) with
  | .vStr s => match env.evalCond s with | .ok true => false | _ => true
  | _ => false

/-- Does the confirm dialog appear and get cancelled? -/
def confirmBlocks (env : Env) (o : JsObj) : Bool :=
  let m := sanitizeValue (orNull (JsObj.get o "confirm"))
  if m.truthy then !(env.confirmOk (jsToString m)) else false

/-- `sanitizeValue(actionOptions.contentMethod || "innerHTML")`. -/
def contentMethodOf (o : JsObj) : JsVal :=
  sanitizeValue (if (JsObj.get o "contentMethod").truthy
    then JsObj.get o "contentMethod" else JsVal.vStr "innerHTML")

/-- `["innerHTML", "textContent"].includes(contentMethod)`. -/
def validContentMethod (o : JsObj) : Bool :=
  contentMethodOf o == JsVal.vStr "innerHTML" ||
    contentMethodOf o == JsVal.vStr "textContent"

/-- `sanitizeValue(actionOptions.scrollTo || null)`. -/
def scrollToOf (o : JsObj) : JsVal :=
  sanitizeValue (orNull (JsObj.get o "scrollTo"))

/-- `["top", "bottom", "left", "right"].includes(scrollTo)`. -/
def validScrollTo (v : JsVal) : Bool :=
  v == JsVal.vStr "top" || v == JsVal.vStr "bottom" ||
    v == JsVal.vStr "left" || v == JsVal.vStr "right"

/-- The scroll keyword the apply phase acts on (`none` when absent). -/
def scrollOptOf (o : JsObj) : Option String :=
  match scrollToOf o with
  | JsVal.vStr s => if validScrollTo (JsVal.vStr s) then some s else none
  | _ => none

/-- `sanitizeValue(actionOptions.contentSet || null)` as an apply payload. -/
def contentSetOf (o : JsObj) : Option String :=
  let v := sanitizeValue (orNull (JsObj.get o "contentSet"))
  if v.truthy then some (jsToString v) else none

/-- `sanitizeValue(actionOptions.contentAppend || null)` as an apply payload. -/
def contentAppendOf (o : JsObj) : Option String :=
  let v := sanitizeValue (orNull (JsObj.get o "contentAppend"))
  if v.truthy then some (jsToString v) else none

/-- `sanitizeValue(actionOptions.contentPrepend || null)` as an apply payload. -/
def contentPrependOf (o : JsObj) : Option String :=
  let v := sanitizeValue (orNull (JsObj.get o "contentPrepend"))
  if v.truthy then some (jsToString v) else none

/-- `contentClear === true || contentClear === "true" || contentClear === ""`
(on the raw merged value, not sanitized). -/
def contentClearOf (o : JsObj) : Bool :=
  decide (JsObj.get o "contentClear" = JsVal.vBool true) ||
  decide (JsObj.get o "contentClear" = JsVal.vStr "true") ||
  decide (JsObj.get o "contentClear" = JsVal.vStr "")

/-- One `querySelectorAll` call inside its `try`: matches on success, no
matches plus a warning when the selector throws. -/
def queryWarn (q : Option (List Nat)) (sel : String) : List Nat × List Ev :=
  match q with
  | some els => (els, [])
  | none => ([], [Ev.warnSelector sel])

/-- Target resolution: with neither selector, the source element itself;
otherwise the global-selector matches followed by the children-selector
matches, each query degrading to no matches plus a warning when the
selector throws. -/
def resolveTargets (env : Env) (elId : Nat) (o : JsObj) : List Nat × List Ev :=
  let ts := sanitizeValue (orNull (JsObj.get o "target"))
  let tcs := sanitizeValue (orNull (JsObj.get o "targetChildren"))
  if ts = JsVal.vNull ∧ tcs = JsVal.vNull then ([elId], [])
  else
    let r1 : List Nat × List Ev :=
      if ts.truthy then queryWarn (env.query (jsToString ts)) (jsToString ts)
      else ([], [])
    let r2 : List Nat × List Ev :=
      if tcs.truthy then queryWarn (env.queryChildren elId (jsToString tcs)) (jsToString tcs)
      else ([], [])
    (r1.1 ++ r2.1, r1.2 ++ r2.2)

/-- Final stage: the delay (`parseFloat(actionOptions.delay) || 0`,
suspending when positive), then the effect closures run (payload emitted),
then the acknowledge dialog, then `return true`. -/
def decideTail (o : JsObj) (tr : List Ev) (targets : List Nat)
    (setL togL addL remL : List String) (cm : String) (cclear : Bool)
    (cset capp cpre : Option String) (sv : Option String) : Decision :=
  let d0 : JsNum :=
    match JsObj.get o "delay" with
    | .vNum n => n
    | .vStr s => parseFloat s
    | _ => JsNum.nan
  let d1 : JsNum := if (JsVal.vNum d0).truthy then d0 else JsNum.num (JsDec.ofInt 0)
  let pos : Bool :=
    match d1 with
    | JsNum.nan => false
    | JsNum.inf b => !b
    | JsNum.num v => decide (0 < v.num)
  let tr := if pos then tr ++ [Ev.delayed d1] else tr
  let ack := sanitizeValue (orNull (JsObj.get o "acknowledge"))
  let tr := if ack.truthy then tr ++ [Ev.ackShown (jsToString ack)] else tr
  ⟨DecRes.ret (JsRet.boolean true), tr,
   some ⟨targets, setL, togL, addL, remL, cm, cclear, cset, capp, cpre, sv⟩⟩

/-- Scroll keyword validation: an invalid keyword warns and then hits the
source's `scrollTo = null` reassignment of a `const`, throwing a `TypeError`
that rejects the promise. -/
def decideScroll (o : JsObj) (tr : List Ev) (targets : List Nat)
    (setL togL addL remL : List String) (cm : String) (cclear : Bool)
    (cset capp cpre : Option String) : Decision :=
  let sv := scrollToOf o
  if sv.truthy && !(validScrollTo sv) then
    ⟨DecRes.thrown, tr ++ [Ev.warnScrollTo (jsToString sv)], none⟩
  else
    decideTail o tr targets setL togL addL remL cm cclear cset capp cpre (scrollOptOf o)

/-- Content stage: an unrecognized accessor warns and returns `undefined`
(bare `return`); otherwise the clear/set/append/prepend payload is parsed. -/
def decideContent (o : JsObj) (tr : List Ev) (targets : List Nat)
    (setL togL addL remL : List String) : Decision :=
  if !(validContentMethod o) then
    ⟨DecRes.ret JsRet.undef, tr ++ [Ev.warnContentMethod (jsToString (contentMethodOf o))], none⟩
  else
    decideScroll o tr targets setL togL addL remL (jsToString (contentMethodOf o))
      (contentClearOf o) (contentSetOf o) (contentAppendOf o) (contentPrependOf o)

/-- Class stage: parse the four lists; an add/remove/toggle overlap warns
and returns `false` (aborting the rest of the step). -/
def decideClasses (o : JsObj) (tr : List Ev) (targets : List Nat) : Decision :=
  let ls := classListsOf o
  if classConflictB o then
    ⟨DecRes.ret (JsRet.boolean false), tr ++ [Ev.warnClassConflict], none⟩
  else
    decideContent o tr targets ls.2.2.2 ls.2.2.1 ls.1 ls.2.1

/-- Execute stage: a string `execute` value is evaluated (exceptions caught
and logged).  A non-string value cannot arise from attributes; the source's
`eval` would return it without calling anything. -/
def decideExecute (env : Env) (o : JsObj) (tr : List Ev) (targets : List Nat) :
    Decision :=
  match sanitizeValue (orNull (JsObj.get o "execute")) with
  | JsVal.vStr s =>
    decideClasses o
      (tr ++ [Ev.execRun s] ++ (if env.execThrows s then [Ev.errExecute s] else []))
      targets
  | _ => decideClasses o tr targets

/-- Confirm stage: a present message shows the dialog; cancellation returns
`false`. -/
def decideConfirm (env : Env) (o : JsObj) (tr : List Ev) (targets : List Nat) :
    Decision :=
  let m := sanitizeValue (orNull (JsObj.get o "confirm"))
  if m.truthy then
    let tr := tr ++ [Ev.confirmShown (jsToString m)]
    if env.confirmOk (jsToString m) then decideExecute env o tr targets
    else ⟨DecRes.ret (JsRet.boolean false), tr, none⟩
  else decideExecute env o tr targets

/-- Step-level condition stage: falsy or throwing `conditionAction` skips
the step but returns `true`. -/
def decideCondAction (env : Env) (o : JsObj) (tr : List Ev) (targets : List Nat) :
    Decision :=
  match sanitizeValue (orNull (JsObj.get o "conditionAction")) with
  | JsVal.vStr s =>
    match env.evalCond s with
    | EvalOutcome.ok true => decideConfirm env o tr targets
    | EvalOutcome.ok false => ⟨DecRes.ret (JsRet.boolean true), tr, none⟩
    | EvalOutcome.err =>
      ⟨DecRes.ret (JsRet.boolean true), tr ++ [Ev.errConditionAction s], none⟩
  | _ => decideConfirm env o tr targets

/-- Sequence-level condition stage: falsy or throwing `condition` returns
`false`. -/
def decideCondition (env : Env) (o : JsObj) (tr : List Ev) (targets : List Nat) :
    Decision :=
  match sanitizeValue (orNull (JsObj.get o "condition")) with
  | JsVal.vStr s =>
    match env.evalCond s with
    | EvalOutcome.ok true => decideCondAction env o tr targets
    | EvalOutcome.ok false => ⟨DecRes.ret (JsRet.boolean false), tr, none⟩
    | EvalOutcome.err =>
      ⟨DecRes.ret (JsRet.boolean false), tr ++ [Ev.errCondition s], none⟩
  | _ => decideCondAction env o tr targets

/-- The decision phase of `executeAction`: merge the defaults, resolve the
targets, then run the staged checks in source order. -/
def execDecide (env : Env) (elId : Nat) (opts : JsObj) : Decision :=
  let o := jsAssign defaultActionOptions opts
  let rt := resolveTargets env elId o
  decideCondition env o rt.2 rt.1

/-! ## `executeAction`: apply phase -/

/-- `classList.add`. -/
def clAdd (cs : List String) (c : String) : List String :=
  if cs.contains c then cs else cs ++ [c]

/-- `classList.remove`. -/
def clRemove (cs : List String) (c : String) : List String :=
  cs.filter (fun x => x ≠ c)

/-- `classList.toggle`. -/
def clToggle (cs : List String) (c : String) : List String :=
  if cs.contains c then cs.filter (fun x => x ≠ c) else cs ++ [c]

/-- One target's class mutation: a non-empty `set` list replaces the whole
class list; otherwise toggle, then add, then remove. -/
def perElemClasses (setL togL addL remL : List String) (e : Elem) : Elem :=
  if !setL.isEmpty then
    { e with classes := setL.foldl clAdd [] }
  else
    { e with classes := remL.foldl clRemove (addL.foldl clAdd (togL.foldl clToggle e.classes)) }

/-- Read the chosen content accessor. -/
def getContent (e : Elem) (m : String) : String :=
  if m = "textContent" then e.textContent else e.innerHTML

/-- Write the chosen content accessor. -/
def setContent (e : Elem) (m : String) (v : String) : Elem :=
  if m = "textContent" then { e with textContent := v } else { e with innerHTML := v }

/-- One target's content mutation, in the fixed order
clear, set, append, prepend. -/
def perElemContent (m : String) (cclear : Bool) (cset capp cpre : Option String)
    (e : Elem) : Elem :=
  let e1 := if cclear then setContent e m "" else e
  let e2 := match cset with | some v => setContent e1 m v | none => e1
  let e3 := match capp with | some v => setContent e2 m (getContent e2 m ++ v) | none => e2
  match cpre with | some v => setContent e3 m (v ++ getContent e3 m) | none => e3

/-- Apply a per-element mutation to every target in order. -/
def applyToTargets (targets : List Nat) (f : Elem → Elem) (d : Dom) : Dom :=
  targets.foldl (fun d t => updElem d t f) d

/-- The scroll effect: the loop body ends in `break`, so only the first
target is scrolled. -/
def applyScrollTo (targets : List Nat) (sv : Option String) (d : Dom) : Dom :=
  match sv with
  | none => d
  | some s =>
    match targets with
    | [] => d
    | t :: _ =>
      updElem d t (fun e =>
        if s = "top" then { e with scrollTop := 0 }
        else if s = "bottom" then { e with scrollTop := e.scrollHeight }
        else if s = "left" then { e with scrollLeft := 0 }
        else if s = "right" then { e with scrollLeft := e.scrollWidth }
        else e)

/-- The apply phase: `applyClasses(); applyContentChanges(); applyScroll()`. -/
def execApply (d : Decision) (dom : Dom) : Dom :=
  match d.plan with
  | none => dom
  | some p =>
    applyScrollTo p.targets p.scrollTo
      (applyToTargets p.targets
        (perElemContent p.contentMethod p.contentClear p.contentSet p.contentAppend p.contentPrepend)
        (applyToTargets p.targets
          (perElemClasses p.classSet p.classToggle p.classAdd p.classRemove) dom))

/-- Output of one `executeAction` call. -/
structure ExecOut where
  res : DecRes
  dom : Dom
  tr : List Ev

/-- `executeAction(el, actionOptions)`. -/
def executeAction (env : Env) (dom : Dom) (elId : Nat) (opts : JsObj) : ExecOut :=
  let d := execDecide env elId opts
  ⟨d.res, execApply d dom, d.tr⟩

/-! ## The action-sequence interpreter `actionHandler` -/

/-- Structured identity of a step within one sequence run: `num 0` is the
unsuffixed first step, `num i` (with `i` ≥ 1) the numbered steps, plus the
`last` and `finally` steps. -/
inductive StepId where
  | num (i : Nat)
  | last
  | fin
deriving DecidableEq, Repr

/-- The attribute-name prefix of step `i`: the bare prefix for the first
step, `prefix-i` for numbered steps. -/
def stepName (pfx : String) : Nat → String
  | 0 => pfx
  | n + 1 => pfx ++ "-" ++ toString (n + 1)

/-- `getElementOptions(el, defaults, name, true)` — the partial record the
handler reads before merging. -/
def stepRaw (attrs : AttrList) (name : String) : JsObj :=
  getElementOptions attrs defaultActionOptions name true

/-- `options && Object.keys(options).length > 0`. -/
def stepPresent (attrs : AttrList) (name : String) : Bool :=
  !(stepRaw attrs name).isEmpty

/-- The merged options record passed to `executeAction`. -/
def stepOpts (attrs : AttrList) (name : String) : JsObj :=
  jsAssign defaultActionOptions (stepRaw attrs name)

/-- The record `executeAction` itself sanitizes and consults for step
`name` (its own re-merge of the handler-merged record, exactly as in the
source where the handler merges once and `executeAction` merges again). -/
def stepExecOpts (attrs : AttrList) (name : String) : JsObj :=
  jsAssign defaultActionOptions (stepOpts attrs name)

/-- The decision `executeAction` reaches for step `name` (the decision
phase never reads the DOM, so it is a function of environment, element and
options alone). -/
def stepDecision (env : Env) (attrs : AttrList) (elId : Nat) (name : String) :
    Decision :=
  execDecide env elId (stepOpts attrs name)

/-- Interpreter state across one triggered run: the `conditionMet` flag,
the document, the cumulative event trace, the invoked steps (an observation
of which `executeAction` calls were made), and the live splash dialog. -/
structure HS where
  conditionMet : Bool
  dom : Dom
  tr : List Ev
  steps : List StepId
  splash : Option JsVal

/-- Continuation of the handler: still running normally, or aborted by a
rejected `executeAction` promise (the `async` listener then stops at the
failed `await`; the state records everything observable up to that point). -/
inductive HRes where
  | ok (s : HS)
  | thrownAt (s : HS)

/-- The state carried by either outcome. -/
def HRes.state : HRes → HS
  | .ok s => s
  | .thrownAt s => s

/-- `if (splashDlg) { splashDlg.modal.hide(); splashDlg = null; }`. -/
def splashHide (s : HS) : HS :=
  match s.splash with
  | some _ => { s with splash := none, tr := s.tr ++ [Ev.splashHidden] }
  | none => s

/-- Hide any live splash, then `splashDlg = splashDialog(content)`. -/
def splashShow (v : JsVal) (s : HS) : HS :=
  let s1 := splashHide s
  { s1 with splash := some v, tr := s1.tr ++ [Ev.splashShown v] }

/-- The `clearSplash` test of the numbered-step loop, evaluated on the
*partial* record (before the defaults are merged): an absent `splash` key is
`undefined` there and matches none of the five comparisons. -/
def clearSplashFlag (raw : JsObj) : Bool :=
  match JsObj.find? raw "splash" with
  | none => false
  | some v =>
    decide (v = JsVal.vNull) || decide (v = JsVal.vStr "") ||
    decide (v = JsVal.vStr "false") || decide (v = JsVal.vStr "0") ||
    decide (v = JsVal.vBool false)

/-- Run `executeAction` for one step and fold its effects into the state,
recording the invocation. -/
def runStepInto (env : Env) (attrs : AttrList) (elId : Nat) (name : String)
    (sid : StepId) (s : HS) : Decision × HS :=
  let d := stepDecision env attrs elId name
  (d, { s with dom := execApply d s.dom, tr := s.tr ++ d.tr, steps := s.steps ++ [sid] })

/-- The first (unsuffixed) step of the handler body. -/
def handlerFirst (env : Env) (attrs : AttrList) (elId : Nat) (pfx : String)
    (s : HS) : HRes :=
  if stepPresent attrs (stepName pfx 0) then
    let pr := runStepInto env attrs elId (stepName pfx 0) (StepId.num 0) s
    match pr.1.res with
    | DecRes.thrown => HRes.thrownAt pr.2
    | DecRes.ret r =>
      let s1 := { pr.2 with conditionMet := r.truthy }
      let o := stepOpts attrs (stepName pfx 0)
      if r.truthy && (JsObj.get o "splash").truthy then
        HRes.ok (splashShow (JsObj.get o "splash") s1)
      else HRes.ok s1
  else HRes.ok s

/-- The `while (conditionMet)` loop over suffixed steps `i = 1, 2, …`,
stopping at the first absent step.  `fuel` bounds the iteration count for
termination; the top-level call passes `attrs.length + 1`, which the loop
can never exhaust because each present numbered step owns at least one
attribute of its own distinct `prefix-i-…` name. -/
def handlerLoop (env : Env) (attrs : AttrList) (elId : Nat) (pfx : String) :
    Nat → Nat → HS → HRes
  | 0, _, s => HRes.ok s
  | fuel + 1, i, s =>
    if s.conditionMet then
      if stepPresent attrs (stepName pfx i) then
        let clearSp := clearSplashFlag (stepRaw attrs (stepName pfx i))
        let pr := runStepInto env attrs elId (stepName pfx i) (StepId.num i) s
        match pr.1.res with
        | DecRes.thrown => HRes.thrownAt pr.2
        | DecRes.ret r =>
          let s1 := { pr.2 with conditionMet := r.truthy }
          let s2 := if clearSp then splashHide s1 else s1
          let o := stepOpts attrs (stepName pfx i)
          let s3 :=
            if r.truthy && (JsObj.get o "splash").truthy then
              splashShow (JsObj.get o "splash") s2
            else s2
          handlerLoop env attrs elId pfx fuel (i + 1) s3
      else HRes.ok s
    else HRes.ok s

/-- The `-last` step: attempted only while `conditionMet` holds, and its
`executeAction` result is discarded (the source `await`s it without
assigning). -/
def handlerLast (env : Env) (attrs : AttrList) (elId : Nat) (pfx : String)
    (s : HS) : HRes :=
  if s.conditionMet then
    if stepPresent attrs (pfx ++ "-last") then
      let o := stepOpts attrs (pfx ++ "-last")
      let pr := runStepInto env attrs elId (pfx ++ "-last") StepId.last s
      match pr.1.res with
      | DecRes.thrown => HRes.thrownAt pr.2
      | DecRes.ret _ =>
        let s1 := if JsObj.get o "splash" = JsVal.vNull then splashHide pr.2 else pr.2
        let s2 :=
          if s1.conditionMet && (JsObj.get o "splash").truthy then
            splashShow (JsObj.get o "splash") s1
          else s1
        HRes.ok s2
    else HRes.ok s
  else HRes.ok s

/-- The `-finally` step: attempted unconditionally. -/
def handlerFinally (env : Env) (attrs : AttrList) (elId : Nat) (pfx : String)
    (s : HS) : HRes :=
  if stepPresent attrs (pfx ++ "-finally") then
    let o := stepOpts attrs (pfx ++ "-finally")
    let pr := runStepInto env attrs elId (pfx ++ "-finally") StepId.fin s
    match pr.1.res with
    | DecRes.thrown => HRes.thrownAt pr.2
    | DecRes.ret _ =>
      let s1 := if JsObj.get o "splash" = JsVal.vNull then splashHide pr.2 else pr.2
      let s2 :=
        if s1.conditionMet && (JsObj.get o "splash").truthy then
          splashShow (JsObj.get o "splash") s1
        else s1
      HRes.ok s2
  else HRes.ok s

/-- Output of one triggered run of the installed listener. -/
structure HOut where
  state : HS
  nativeCalled : Bool
  completed : Bool

/-- The listener installed by `addEventActions` (after its unconditional
`preventDefault`/`stopPropagation`): first step, numbered loop, `-last`,
`-finally`, then the replay of the recorded native handler (`native`) when
every executed step's result stayed truthy, then the final splash teardown.
A rejected `executeAction` promise aborts the remainder of the listener
body. -/
def actionHandler (env : Env) (attrs : AttrList) (elId : Nat) (pfx : String)
    (native : Option Nat) (dom : Dom) : HOut :=
  let s0 : HS := ⟨true, dom, [], [], none⟩
  match handlerFirst env attrs elId pfx s0 with
  | HRes.thrownAt s => ⟨s, false, false⟩
  | HRes.ok s =>
    match handlerLoop env attrs elId pfx (attrs.length + 1) 1 s with
    | HRes.thrownAt s => ⟨s, false, false⟩
    | HRes.ok s =>
      match handlerLast env attrs elId pfx s with
      | HRes.thrownAt s => ⟨s, false, false⟩
      | HRes.ok s =>
        match handlerFinally env attrs elId pfx s with
        | HRes.thrownAt s => ⟨s, false, false⟩
        | HRes.ok s =>
          let callNative := s.conditionMet && native.isSome
          let s1 := if callNative then { s with tr := s.tr ++ [Ev.nativeHandlerRun] } else s
          let s2 :=
            match s1.splash with
            | some _ => { s1 with tr := s1.tr ++ [Ev.splashHidden] }
            | none => s1
          ⟨s2, callNative, true⟩

/-! ## Concrete fixtures for witnesses and counterexamples -/

/-- A concrete environment: the selector query resolves every global
selector to elements 3 and 4, children queries to nothing; the expression
"T" evaluates truthy, "F" falsy, anything else throws; `execute` never
throws; the confirm dialog is accepted exactly for the message "yes". -/
def witEnv : Env :=
  ⟨fun _ => some [3, 4], fun _ _ => some [],
   fun s => if s = "T" then EvalOutcome.ok true
     else if s = "F" then EvalOutcome.ok false else EvalOutcome.err,
   fun _ => false, fun m => m = "yes"⟩

/-- A concrete element. -/
def witElem : Elem := ⟨[], "A", "a", 0, 0, 100, 50⟩

/-- A concrete document mapping every id to `witElem`. -/
def witDom : Dom := fun _ => witElem

/-! # Theorems -/

/-! ## C7: the option reader -/

/-- C7.  For every schema key, the option reader coerces a present
attribute using the default's declared type (text lower-cased and compared
to "true" for boolean defaults, parsed as a floating-point number for
numeric defaults, verbatim text otherwise); when the attribute is absent
the schema default is filled in if `onlyExisting` is false and the key is
omitted entirely if `onlyExisting` is true.  Malformed text falls back
through the same total coercions (`parseFloat` yielding NaN, the boolean
comparison yielding `false`), and the reader — a total function — never
throws: `getElementOptions` coincides with the reader described by the
specification on every input. -/
theorem c7_reader_matches_spec (attrs : AttrList) (defaults : JsObj)
    (pfx : String) (onlyExisting : Bool) :
    getElementOptions attrs defaults pfx onlyExisting
      = getElementOptionsSpec attrs defaults pfx onlyExisting := by
  have gen : ∀ (g : (String × JsVal) → Option (String × JsVal)) (l acc : JsObj),
      List.foldl (fun acc kv =>
        match g kv with | some b => acc ++ [b] | none => acc) acc l
        = acc ++ List.filterMap g l := by
    intro g l
    induction l with
    | nil => intro acc; simp
    | cons kv t ih =>
      intro acc
      cases hg : g kv with
      | none => simpa [hg] using ih acc
      | some b => simp [hg, ih]
  have hb : (fun (acc : JsObj) (kv : String × JsVal) =>
      match getAttr attrs ("data-" ++ (readerPrefixStr pfx ++ camelToSnakeCase kv.1)) with
      | some v => acc ++ [(kv.1, coerceByDefault kv.2 v)]
      | none => if onlyExisting then acc else acc ++ [(kv.1, kv.2)])
      = (fun (acc : JsObj) (kv : String × JsVal) =>
      match (match getAttr attrs ("data-" ++ (readerPrefixStr pfx ++ camelToSnakeCase kv.1)) with
             | some v => some (kv.1, coerceByDefault kv.2 v)
             | none => if onlyExisting then none else some (kv.1, kv.2)) with
      | some b => acc ++ [b]
      | none => acc) := by
    funext acc kv
    cases hA : getAttr attrs ("data-" ++ (readerPrefixStr pfx ++ camelToSnakeCase kv.1)) with
    | some v => rfl
    | none => by_cases hoe : onlyExisting <;> simp [hoe]
  have step1 : getElementOptions attrs defaults pfx onlyExisting
      = List.foldl (fun (acc : JsObj) (kv : String × JsVal) =>
      match (match getAttr attrs ("data-" ++ (readerPrefixStr pfx ++ camelToSnakeCase kv.1)) with
             | some v => some (kv.1, coerceByDefault kv.2 v)
             | none => if onlyExisting then none else some (kv.1, kv.2)) with
      | some b => acc ++ [b]
      | none => acc) [] defaults := by
    show List.foldl _ [] defaults = _
    rw [hb]
  rw [step1, gen]
  have hspec : getElementOptionsSpec attrs defaults pfx onlyExisting
      = List.filterMap (fun kv =>
          match getAttr attrs ("data-" ++ (readerPrefixStr pfx ++ camelToSnakeCase kv.1)) with
          | some v => some (kv.1, coerceByDefault kv.2 v)
          | none => if onlyExisting then none else some (kv.1, kv.2)) defaults := by
    unfold getElementOptionsSpec
    rfl
  rw [hspec]
  exact List.nil_append _

/-! ## C8: the `data-class-delay` unit suffix -/

/-- C8.  Evaluation of the `data-class-delay` parsing at concrete inputs.
The claim states that a value "Nms" waits N milliseconds; the code tests
`endsWith("s")` *first*, so "500ms" takes the seconds branch (multiplier
1000), `parseFloat("500m")` parses 500, and the computed delay is 500000
milliseconds — the `endsWith("ms")` branch is unreachable, contradicting
the source's own usage documentation ("data-class-delay='500ms'" described
as a 500-millisecond delay).  The claim's other arms ("Ns" waits N*1000,
a bare number waits N, NaN or negative resets to 0 with a warning) hold. -/
theorem c8_delay_unit_suffix_evaluation :
    dataClassDelay (some "500ms") = (JsNum.num ⟨500000, 1⟩, false) ∧
    dataClassDelay (some "2s") = (JsNum.num ⟨2000, 1⟩, false) ∧
    dataClassDelay (some "250") = (JsNum.num ⟨250, 1⟩, false) ∧
    dataClassDelay none = (JsNum.num ⟨0, 1⟩, false) ∧
    dataClassDelay (some "abc") = (JsNum.num ⟨0, 1⟩, true) ∧
    dataClassDelay (some "-5") = (JsNum.num ⟨0, 1⟩, true) := by
  decide

/-! ## C3: attaching twice -/

/-- C3.  Evaluation of `addEventActions` bookkeeping at the failing input.
On an element with no pre-existing inline handler for the event type, the
guard `el._eventActions && el._eventActions[eventType]` reads the stored
*original handler*, which is `null`, so the second call passes the guard
and installs a second listener (and overwrites the recorded listener
reference) — the claimed idempotence fails.  With a pre-existing inline
handler the second call is indeed a no-op. -/
theorem c3_attach_twice_installs_second_listener :
    (addEventActions (addEventActions ⟨[], none, []⟩ "click" 1) "click" 2).listeners
        = [("click", 1), ("click", 2)] ∧
    (addEventActions ⟨[], none, []⟩ "click" 1).listeners = [("click", 1)] ∧
    (addEventActions (addEventActions ⟨[("click", 7)], none, []⟩ "click" 1) "click" 2)
        = addEventActions ⟨[("click", 7)], none, []⟩ "click" 1 := by
  decide

/-! ## C10: removal with a null recorded original handler -/

/-- C10.  If an element is attached for an event type while having no
pre-existing inline handler (the recorded original handler is `null`),
then `removeEventActions` for that pair returns early — through the
`if (!el._eventActions[eventType]) return` test — without removing the
installed listener or touching the bookkeeping: the state is exactly the
attached state, whose listener list still ends with the installed
listener. -/
theorem c10_remove_with_null_original_is_noop (st0 : AttachState)
    (et : String) (hid : Nat)
    (hea : st0.ea = none)
    (horig : getKey? st0.onHandlers et = none) :
    removeEventActionsAt (addEventActions st0 et hid) et = addEventActions st0 et hid ∧
    (addEventActions st0 et hid).listeners = st0.listeners ++ [(et, hid)] := by
  obtain ⟨onH, ea, ls⟩ := st0
  simp only at hea horig
  subst hea
  simp only [getKey?] at horig
  simp [addEventActions, removeEventActionsAt, getKey?, setKey, delKey, horig]

/-- Witness for C10 at a concrete input. -/
theorem c10_witness :
    removeEventActionsAt (addEventActions ⟨[], none, []⟩ "click" 5) "click"
        = addEventActions ⟨[], none, []⟩ "click" 5 ∧
    (addEventActions ⟨[], none, []⟩ "click" 5).listeners = [("click", 5)] := by
  have h := c10_remove_with_null_original_is_noop ⟨[], none, []⟩ "click" 5 rfl rfl
  simpa using h

/-! ## Stage lemmas for the decision phase -/

/-- Every event logged by a single selector query is a selector warning. -/
theorem queryWarn_tr (q : Option (List Nat)) (sel : String) :
    ∀ e ∈ (queryWarn q sel).2, ∃ s, e = Ev.warnSelector s := by
  cases q <;> simp [queryWarn]

/-- Every event logged during target resolution is a selector warning. -/
theorem resolveTargets_tr (env : Env) (elId : Nat) (o : JsObj) :
    ∀ e ∈ (resolveTargets env elId o).2, ∃ s, e = Ev.warnSelector s := by
  intro e he
  simp only [resolveTargets] at he
  split at he
  · simp at he
  · simp only [List.mem_append] at he
    rcases he with he | he
    · split at he
      · exact queryWarn_tr _ _ e he
      · simp at he
    · split at he
      · exact queryWarn_tr _ _ e he
      · simp at he

/-- A failing (or throwing) sequence-level condition returns `false` with no
effect payload. -/
theorem decideCondition_blocked (env : Env) (o : JsObj) (tr : List Ev)
    (tg : List Nat) (h : seqCondBlocks env o = true) :
    (decideCondition env o tr tg).res = DecRes.ret (JsRet.boolean false) ∧
    (decideCondition env o tr tg).plan = none := by
  cases hv : sanitizeValue (orNull (JsObj.get o "condition")) with
  | vStr s =>
    cases he : env.evalCond s with
    | ok b =>
      cases b
      · refine ⟨?_, ?_⟩ <;> simp [decideCondition, hv, he]
      · simp [seqCondBlocks, hv, he] at h
    | err => refine ⟨?_, ?_⟩ <;> simp [decideCondition, hv, he]
  | vNull => simp [seqCondBlocks, hv] at h
  | vBool b => simp [seqCondBlocks, hv] at h
  | vNum n => simp [seqCondBlocks, hv] at h

/-- A passing (or absent) sequence-level condition falls through. -/
theorem decideCondition_not_blocked (env : Env) (o : JsObj) (tr : List Ev)
    (tg : List Nat) (h : seqCondBlocks env o = false) :
    decideCondition env o tr tg = decideCondAction env o tr tg := by
  cases hv : sanitizeValue (orNull (JsObj.get o "condition")) with
  | vStr s =>
    cases he : env.evalCond s with
    | ok b =>
      cases b
      · simp [seqCondBlocks, hv, he] at h
      · simp [decideCondition, hv, he]
    | err => simp [seqCondBlocks, hv, he] at h
  | vNull => simp [decideCondition, hv]
  | vBool b => simp [decideCondition, hv]
  | vNum n => simp [decideCondition, hv]

/-- A failing (or throwing) step-level condition skips the step, returning
`true` with no effect payload; the only events it can add are its own
evaluation-error log entries. -/
theorem decideCondAction_skipped (env : Env) (o : JsObj) (tr : List Ev)
    (tg : List Nat) (h : actCondSkips env o = true) :
    ∃ extra, decideCondAction env o tr tg
        = ⟨DecRes.ret (JsRet.boolean true), tr ++ extra, none⟩ ∧
      ∀ e ∈ extra, ∃ s, e = Ev.errConditionAction s := by
  cases hv : sanitizeValue (orNull (JsObj.get o "conditionAction")) with
  | vStr s =>
    cases he : env.evalCond s with
    | ok b =>
      cases b
      · refine ⟨[], ?_, by simp⟩
        simp [decideCondAction, hv, he]
      · simp [actCondSkips, hv, he] at h
    | err =>
      refine ⟨[Ev.errConditionAction s], ?_, by simp⟩
      simp [decideCondAction, hv, he]
  | vNull => simp [actCondSkips, hv] at h
  | vBool b => simp [actCondSkips, hv] at h
  | vNum n => simp [actCondSkips, hv] at h

/-- A passing (or absent) step-level condition falls through. -/
theorem decideCondAction_not_skipped (env : Env) (o : JsObj) (tr : List Ev)
    (tg : List Nat) (h : actCondSkips env o = false) :
    decideCondAction env o tr tg = decideConfirm env o tr tg := by
  cases hv : sanitizeValue (orNull (JsObj.get o "conditionAction")) with
  | vStr s =>
    cases he : env.evalCond s with
    | ok b =>
      cases b
      · simp [actCondSkips, hv, he] at h
      · simp [decideCondAction, hv, he]
    | err => simp [actCondSkips, hv, he] at h
  | vNull => simp [decideCondAction, hv]
  | vBool b => simp [decideCondAction, hv]
  | vNum n => simp [decideCondAction, hv]

/-- A cancelled confirmation returns `false` with no effect payload. -/
theorem decideConfirm_cancelled (env : Env) (o : JsObj) (tr : List Ev)
    (tg : List Nat) (h : confirmBlocks env o = true) :
    (decideConfirm env o tr tg).res = DecRes.ret (JsRet.boolean false) ∧
    (decideConfirm env o tr tg).plan = none := by
  by_cases ht : (sanitizeValue (orNull (JsObj.get o "confirm"))).truthy
  · cases hok : env.confirmOk (jsToString (sanitizeValue (orNull (JsObj.get o "confirm"))))
    · refine ⟨?_, ?_⟩ <;> simp [decideConfirm, ht, hok]
    · simp [confirmBlocks, ht, hok] at h
  · simp [confirmBlocks, ht] at h

/-- An absent or accepted confirmation falls through, possibly logging the
shown dialog. -/
theorem decideConfirm_passed (env : Env) (o : JsObj) (tr : List Ev)
    (tg : List Nat) (h : confirmBlocks env o = false) :
    ∃ extra, decideConfirm env o tr tg = decideExecute env o (tr ++ extra) tg ∧
      ∀ e ∈ extra, ∃ m, e = Ev.confirmShown m := by
  by_cases ht : (sanitizeValue (orNull (JsObj.get o "confirm"))).truthy
  · cases hok : env.confirmOk (jsToString (sanitizeValue (orNull (JsObj.get o "confirm"))))
    · simp [confirmBlocks, ht, hok] at h
    · refine ⟨[Ev.confirmShown (jsToString (sanitizeValue (orNull (JsObj.get o "confirm"))))],
        ?_, by simp⟩
      simp [decideConfirm, ht, hok]
  · refine ⟨[], ?_, by simp⟩
    simp [decideConfirm, ht]

/-- The execute stage always falls through to the class stage, adding only
execute-invocation and execute-error events. -/
theorem decideExecute_to_classes (env : Env) (o : JsObj) (tr : List Ev)
    (tg : List Nat) :
    ∃ extra, decideExecute env o tr tg = decideClasses o (tr ++ extra) tg ∧
      ∀ e ∈ extra, (∃ s, e = Ev.execRun s) ∨ (∃ s, e = Ev.errExecute s) := by
  cases hv : sanitizeValue (orNull (JsObj.get o "execute")) with
  | vStr s =>
    refine ⟨[Ev.execRun s] ++ (if env.execThrows s then [Ev.errExecute s] else []),
      ?_, ?_⟩
    · simp [decideExecute, hv, List.append_assoc]
    · intro e he
      simp only [List.mem_append, List.mem_singleton] at he
      rcases he with he | he
      · exact Or.inl ⟨s, he⟩
      · split at he
        · simp only [List.mem_singleton] at he
          exact Or.inr ⟨s, he⟩
        · simp at he
  | vNull => exact ⟨[], by simp [decideExecute, hv], by simp⟩
  | vBool b => exact ⟨[], by simp [decideExecute, hv], by simp⟩
  | vNum n => exact ⟨[], by simp [decideExecute, hv], by simp⟩

/-- A class-category conflict warns and returns `false` with no payload. -/
theorem decideClasses_conflict (o : JsObj) (tr : List Ev) (tg : List Nat)
    (h : classConflictB o = true) :
    decideClasses o tr tg
      = ⟨DecRes.ret (JsRet.boolean false), tr ++ [Ev.warnClassConflict], none⟩ := by
  simp [decideClasses, h]

/-- Without a conflict, the class stage falls through with the parsed
lists. -/
theorem decideClasses_no_conflict (o : JsObj) (tr : List Ev) (tg : List Nat)
    (h : classConflictB o = false) :
    decideClasses o tr tg
      = decideContent o tr tg (classListsOf o).2.2.2 (classListsOf o).2.2.1
          (classListsOf o).1 (classListsOf o).2.1 := by
  simp [decideClasses, h]

/-- An invalid content accessor warns and returns `undefined` with no
payload. -/
theorem decideContent_invalid (o : JsObj) (tr : List Ev) (tg : List Nat)
    (setL togL addL remL : List String) (h : validContentMethod o = false) :
    decideContent o tr tg setL togL addL remL
      = ⟨DecRes.ret JsRet.undef,
         tr ++ [Ev.warnContentMethod (jsToString (contentMethodOf o))], none⟩ := by
  simp [decideContent, h]

/-- A valid content accessor falls through with the parsed payload. -/
theorem decideContent_valid (o : JsObj) (tr : List Ev) (tg : List Nat)
    (setL togL addL remL : List String) (h : validContentMethod o = true) :
    decideContent o tr tg setL togL addL remL
      = decideScroll o tr tg setL togL addL remL (jsToString (contentMethodOf o))
          (contentClearOf o) (contentSetOf o) (contentAppendOf o) (contentPrependOf o) := by
  simp [decideContent, h]

/-- An absent or valid scroll keyword falls through to the tail stage. -/
theorem decideScroll_ok (o : JsObj) (tr : List Ev) (tg : List Nat)
    (setL togL addL remL : List String) (cm : String) (cclear : Bool)
    (cset capp cpre : Option String)
    (h : (scrollToOf o).truthy = false ∨ validScrollTo (scrollToOf o) = true) :
    decideScroll o tr tg setL togL addL remL cm cclear cset capp cpre
      = decideTail o tr tg setL togL addL remL cm cclear cset capp cpre
          (scrollOptOf o) := by
  rcases h with h | h <;> simp [decideScroll, h]

/-- The tail stage always returns `true`. -/
theorem decideTail_res (o : JsObj) (tr : List Ev) (tg : List Nat)
    (setL togL addL remL : List String) (cm : String) (cclear : Bool)
    (cset capp cpre : Option String) (sv : Option String) :
    (decideTail o tr tg setL togL addL remL cm cclear cset capp cpre sv).res
      = DecRes.ret (JsRet.boolean true) := rfl

/-- The tail stage emits exactly the computed effect payload. -/
theorem decideTail_plan (o : JsObj) (tr : List Ev) (tg : List Nat)
    (setL togL addL remL : List String) (cm : String) (cclear : Bool)
    (cset capp cpre : Option String) (sv : Option String) :
    (decideTail o tr tg setL togL addL remL cm cclear cset capp cpre sv).plan
      = some ⟨tg, setL, togL, addL, remL, cm, cclear, cset, capp, cpre, sv⟩ := rfl

/-- `execDecide` unfolded to the head of the stage chain. -/
theorem execDecide_unfold (env : Env) (elId : Nat) (opts : JsObj) :
    execDecide env elId opts
      = decideCondition env (jsAssign defaultActionOptions opts)
          (resolveTargets env elId (jsAssign defaultActionOptions opts)).2
          (resolveTargets env elId (jsAssign defaultActionOptions opts)).1 := rfl

/-- With a passing sequence condition, a passing step condition and an
accepted (or absent) confirmation, `executeAction`'s decision reaches the
class stage; the trace so far holds only selector warnings, the confirm
dialog, and execute events. -/
theorem execDecide_reach_classes (env : Env) (elId : Nat) (opts : JsObj)
    (hseq : seqCondBlocks env (jsAssign defaultActionOptions opts) = false)
    (hact : actCondSkips env (jsAssign defaultActionOptions opts) = false)
    (hconf : confirmBlocks env (jsAssign defaultActionOptions opts) = false) :
    ∃ pre, execDecide env elId opts
        = decideClasses (jsAssign defaultActionOptions opts) pre
            (resolveTargets env elId (jsAssign defaultActionOptions opts)).1 ∧
      ∀ e ∈ pre, (∃ s, e = Ev.warnSelector s) ∨ (∃ m, e = Ev.confirmShown m) ∨
        (∃ s, e = Ev.execRun s) ∨ (∃ s, e = Ev.errExecute s) := by
  rw [execDecide_unfold, decideCondition_not_blocked _ _ _ _ hseq,
    decideCondAction_not_skipped _ _ _ _ hact]
  obtain ⟨ex1, heq1, hex1⟩ := decideConfirm_passed env (jsAssign defaultActionOptions opts)
    (resolveTargets env elId (jsAssign defaultActionOptions opts)).2
    (resolveTargets env elId (jsAssign defaultActionOptions opts)).1 hconf
  rw [heq1]
  obtain ⟨ex2, heq2, hex2⟩ := decideExecute_to_classes env (jsAssign defaultActionOptions opts)
    ((resolveTargets env elId (jsAssign defaultActionOptions opts)).2 ++ ex1)
    (resolveTargets env elId (jsAssign defaultActionOptions opts)).1
  rw [heq2]
  refine ⟨(resolveTargets env elId (jsAssign defaultActionOptions opts)).2 ++ ex1 ++ ex2,
    rfl, ?_⟩
  intro e he
  rcases List.mem_append.mp he with he | he
  · rcases List.mem_append.mp he with he | he
    · exact Or.inl (resolveTargets_tr _ _ _ e he)
    · exact Or.inr (Or.inl (hex1 e he))
  · rcases hex2 e he with h | h
    · exact Or.inr (Or.inr (Or.inl h))
    · exact Or.inr (Or.inr (Or.inr h))

/-! ## C4: conflicting class lists -/

/-- C4, amended.  For every step whose class-mutation request has a class
name in more than one of add/remove/toggle — and which reaches the class
stage (sequence and step conditions pass, confirmation accepted or absent)
— the class mutation is rejected with a logged warning, and the *whole
remainder of the step* is aborted: `executeAction` returns `false` (which
also gates off the rest of the sequence), the DOM is left untouched (no
class, content or scroll mutation), and no delay or acknowledge dialog
happens.  The already-performed confirmation and execute effects are not
rolled back. -/
theorem c4_class_conflict_aborts_step (env : Env) (dom : Dom) (elId : Nat)
    (opts : JsObj)
    (hseq : seqCondBlocks env (jsAssign defaultActionOptions opts) = false)
    (hact : actCondSkips env (jsAssign defaultActionOptions opts) = false)
    (hconf : confirmBlocks env (jsAssign defaultActionOptions opts) = false)
    (hcc : classConflictB (jsAssign defaultActionOptions opts) = true) :
    (executeAction env dom elId opts).res = DecRes.ret (JsRet.boolean false) ∧
    Ev.warnClassConflict ∈ (executeAction env dom elId opts).tr ∧
    (executeAction env dom elId opts).dom = dom ∧
    (∀ m, Ev.ackShown m ∉ (executeAction env dom elId opts).tr) ∧
    (∀ v, Ev.delayed v ∉ (executeAction env dom elId opts).tr) := by
  obtain ⟨pre, heq, hpre⟩ := execDecide_reach_classes env elId opts hseq hact hconf
  have hdec : execDecide env elId opts
      = ⟨DecRes.ret (JsRet.boolean false), pre ++ [Ev.warnClassConflict], none⟩ := by
    rw [heq, decideClasses_conflict _ _ _ hcc]
  have hout : executeAction env dom elId opts
      = ⟨DecRes.ret (JsRet.boolean false), dom, pre ++ [Ev.warnClassConflict]⟩ := by
    unfold executeAction
    rw [hdec]
    rfl
  rw [hout]
  refine ⟨rfl, by simp, rfl, ?_, ?_⟩
  · intro m hm
    rcases List.mem_append.mp hm with hm | hm
    · rcases hpre _ hm with ⟨s, h⟩ | ⟨s, h⟩ | ⟨s, h⟩ | ⟨s, h⟩ <;> simp at h
    · simp at hm
  · intro v hv
    rcases List.mem_append.mp hv with hv | hv
    · rcases hpre _ hv with ⟨s, h⟩ | ⟨s, h⟩ | ⟨s, h⟩ | ⟨s, h⟩ <;> simp at h
    · simp at hv

/-- Counterexample to C4 as stated: a step with `classAdd="x"`,
`classRemove="x"` and `contentSet="B"` on an element whose content is "A".
The claim says only the class mutation is rejected while the step's other
effects still run; the code instead returns `false` and leaves the content
at "A" — the content mutation (and everything after it) is aborted too. -/
theorem c4_counterexample :
    (executeAction witEnv witDom 0
        [("classAdd", JsVal.vStr "x"), ("classRemove", JsVal.vStr "x"),
         ("contentSet", JsVal.vStr "B")]).res = DecRes.ret (JsRet.boolean false) ∧
    ((executeAction witEnv witDom 0
        [("classAdd", JsVal.vStr "x"), ("classRemove", JsVal.vStr "x"),
         ("contentSet", JsVal.vStr "B")]).dom 0).innerHTML = "A" ∧
    Ev.warnClassConflict ∈ (executeAction witEnv witDom 0
        [("classAdd", JsVal.vStr "x"), ("classRemove", JsVal.vStr "x"),
         ("contentSet", JsVal.vStr "B")]).tr := by
  decide

/-- Witness for C4's amended theorem at a concrete input. -/
theorem c4_witness :
    classConflictB (jsAssign defaultActionOptions
        [("classAdd", JsVal.vStr "x"), ("classRemove", JsVal.vStr "x")]) = true ∧
    (executeAction witEnv witDom 0
        [("classAdd", JsVal.vStr "x"), ("classRemove", JsVal.vStr "x")]).res
      = DecRes.ret (JsRet.boolean false) :=
  ⟨by decide,
   (c4_class_conflict_aborts_step witEnv witDom 0
      [("classAdd", JsVal.vStr "x"), ("classRemove", JsVal.vStr "x")]
      (by decide) (by decide) (by decide) (by decide)).1⟩

/-! ## C5: invalid content accessor -/

/-- C5, amended.  For every step whose content accessor mode is neither
`innerHTML` nor `textContent` — and which reaches the content stage — the
step is fatally aborted: `executeAction` logs a warning and returns
`undefined` (no successful completion signal), and *no* DOM effect of the
step is applied — the class mutations are *not* applied earlier, because
the source only runs its `applyClasses` closure after the accessor
validation; scroll, delay and acknowledge are skipped as well.  Only the
confirmation and execute effects, which precede the validation, have
already happened. -/
theorem c5_invalid_accessor_skips_all_effects (env : Env) (dom : Dom)
    (elId : Nat) (opts : JsObj)
    (hseq : seqCondBlocks env (jsAssign defaultActionOptions opts) = false)
    (hact : actCondSkips env (jsAssign defaultActionOptions opts) = false)
    (hconf : confirmBlocks env (jsAssign defaultActionOptions opts) = false)
    (hcc : classConflictB (jsAssign defaultActionOptions opts) = false)
    (hcm : validContentMethod (jsAssign defaultActionOptions opts) = false) :
    (executeAction env dom elId opts).res = DecRes.ret JsRet.undef ∧
    Ev.warnContentMethod (jsToString (contentMethodOf (jsAssign defaultActionOptions opts)))
      ∈ (executeAction env dom elId opts).tr ∧
    (executeAction env dom elId opts).dom = dom ∧
    (∀ m, Ev.ackShown m ∉ (executeAction env dom elId opts).tr) ∧
    (∀ v, Ev.delayed v ∉ (executeAction env dom elId opts).tr) := by
  obtain ⟨pre, heq, hpre⟩ := execDecide_reach_classes env elId opts hseq hact hconf
  have hdec : execDecide env elId opts
      = ⟨DecRes.ret JsRet.undef,
         pre ++ [Ev.warnContentMethod (jsToString (contentMethodOf (jsAssign defaultActionOptions opts)))],
         none⟩ := by
    rw [heq, decideClasses_no_conflict _ _ _ hcc,
      decideContent_invalid _ _ _ _ _ _ _ hcm]
  have hout : executeAction env dom elId opts
      = ⟨DecRes.ret JsRet.undef, dom,
         pre ++ [Ev.warnContentMethod (jsToString (contentMethodOf (jsAssign defaultActionOptions opts)))]⟩ := by
    unfold executeAction
    rw [hdec]
    rfl
  rw [hout]
  refine ⟨rfl, by simp, rfl, ?_, ?_⟩
  · intro m hm
    rcases List.mem_append.mp hm with hm | hm
    · rcases hpre _ hm with ⟨s, h⟩ | ⟨s, h⟩ | ⟨s, h⟩ | ⟨s, h⟩ <;> simp at h
    · simp at hm
  · intro v hv
    rcases List.mem_append.mp hv with hv | hv
    · rcases hpre _ hv with ⟨s, h⟩ | ⟨s, h⟩ | ⟨s, h⟩ | ⟨s, h⟩ <;> simp at h
    · simp at hv

/-- Counterexample to C5 as stated: a step with `classAdd="x"` and
`contentMethod="bogus"` on an element with no classes.  The claim says the
class mutations "have already been applied earlier"; the code instead
returns `undefined` with the class list still empty — class application is
deferred until after the accessor validation and never happens. -/
theorem c5_counterexample :
    (executeAction witEnv witDom 0
        [("classAdd", JsVal.vStr "x"), ("contentMethod", JsVal.vStr "bogus")]).res
      = DecRes.ret JsRet.undef ∧
    ((executeAction witEnv witDom 0
        [("classAdd", JsVal.vStr "x"), ("contentMethod", JsVal.vStr "bogus")]).dom 0).classes
      = [] ∧
    Ev.warnContentMethod "bogus" ∈ (executeAction witEnv witDom 0
        [("classAdd", JsVal.vStr "x"), ("contentMethod", JsVal.vStr "bogus")]).tr := by
  decide

/-- Witness for C5's amended theorem at a concrete input. -/
theorem c5_witness :
    validContentMethod (jsAssign defaultActionOptions
        [("classAdd", JsVal.vStr "x"), ("contentMethod", JsVal.vStr "bogus")]) = false ∧
    (executeAction witEnv witDom 0
        [("classAdd", JsVal.vStr "x"), ("contentMethod", JsVal.vStr "bogus")]).res
      = DecRes.ret JsRet.undef :=
  ⟨by decide,
   (c5_invalid_accessor_skips_all_effects witEnv witDom 0
      [("classAdd", JsVal.vStr "x"), ("contentMethod", JsVal.vStr "bogus")]
      (by decide) (by decide) (by decide) (by decide) (by decide)).1⟩

/-! ## Apply-phase lemmas -/

/-- On a duplicate-free target list, applying a per-element mutation
touches each element exactly once. -/
theorem applyToTargets_get (f : Elem → Elem) :
    ∀ (ts : List Nat), ts.Nodup → ∀ (d : Dom) (t : Nat),
      applyToTargets ts f d t = if t ∈ ts then f (d t) else d t := by
  intro ts
  induction ts with
  | nil => intro _ d t; simp [applyToTargets]
  | cons x ts ih =>
    intro hnd d t
    rcases List.nodup_cons.mp hnd with ⟨hx, hnd2⟩
    have hstep : applyToTargets (x :: ts) f d = applyToTargets ts f (updElem d x f) := rfl
    rw [hstep, ih hnd2]
    by_cases htx : t = x
    · subst htx
      rw [if_neg (fun hmem => hx hmem), if_pos (List.mem_cons_self t ts)]
      simp [updElem]
    · by_cases hts : t ∈ ts
      · rw [if_pos hts, if_pos (List.mem_cons_of_mem x hts)]
        simp [updElem, htx]
      · rw [if_neg hts, if_neg (by simp [htx, hts])]
        simp [updElem, htx]

/-- Content writes leave the class list alone. -/
@[simp] theorem setContent_classes (e : Elem) (m v : String) :
    (setContent e m v).classes = e.classes := by
  unfold setContent; split <;> rfl

/-- Content writes leave the vertical scroll offset alone. -/
@[simp] theorem setContent_scrollTop (e : Elem) (m v : String) :
    (setContent e m v).scrollTop = e.scrollTop := by
  unfold setContent; split <;> rfl

/-- Content writes leave the horizontal scroll offset alone. -/
@[simp] theorem setContent_scrollLeft (e : Elem) (m v : String) :
    (setContent e m v).scrollLeft = e.scrollLeft := by
  unfold setContent; split <;> rfl

/-- Content writes leave the scroll height alone. -/
@[simp] theorem setContent_scrollHeight (e : Elem) (m v : String) :
    (setContent e m v).scrollHeight = e.scrollHeight := by
  unfold setContent; split <;> rfl

/-- A step's content mutation leaves the class list alone. -/
@[simp] theorem perElemContent_classes (m : String) (cc : Bool)
    (cs ca cp : Option String) (e : Elem) :
    (perElemContent m cc cs ca cp e).classes = e.classes := by
  unfold perElemContent
  cases cs <;> cases ca <;> cases cp <;> by_cases hc : cc <;> simp [hc]

/-- A step's content mutation leaves the vertical scroll offset alone. -/
@[simp] theorem perElemContent_scrollTop (m : String) (cc : Bool)
    (cs ca cp : Option String) (e : Elem) :
    (perElemContent m cc cs ca cp e).scrollTop = e.scrollTop := by
  unfold perElemContent
  cases cs <;> cases ca <;> cases cp <;> by_cases hc : cc <;> simp [hc]

/-- A step's content mutation leaves the horizontal scroll offset alone. -/
@[simp] theorem perElemContent_scrollLeft (m : String) (cc : Bool)
    (cs ca cp : Option String) (e : Elem) :
    (perElemContent m cc cs ca cp e).scrollLeft = e.scrollLeft := by
  unfold perElemContent
  cases cs <;> cases ca <;> cases cp <;> by_cases hc : cc <;> simp [hc]

/-- A step's content mutation leaves the scroll height alone. -/
@[simp] theorem perElemContent_scrollHeight (m : String) (cc : Bool)
    (cs ca cp : Option String) (e : Elem) :
    (perElemContent m cc cs ca cp e).scrollHeight = e.scrollHeight := by
  unfold perElemContent
  cases cs <;> cases ca <;> cases cp <;> by_cases hc : cc <;> simp [hc]

/-- A step's class mutation leaves the vertical scroll offset alone. -/
@[simp] theorem perElemClasses_scrollTop (sL tL aL rL : List String) (e : Elem) :
    (perElemClasses sL tL aL rL e).scrollTop = e.scrollTop := by
  unfold perElemClasses; split <;> rfl

/-- A step's class mutation leaves the horizontal scroll offset alone. -/
@[simp] theorem perElemClasses_scrollLeft (sL tL aL rL : List String) (e : Elem) :
    (perElemClasses sL tL aL rL e).scrollLeft = e.scrollLeft := by
  unfold perElemClasses; split <;> rfl

/-- A step's class mutation leaves the scroll height alone. -/
@[simp] theorem perElemClasses_scrollHeight (sL tL aL rL : List String) (e : Elem) :
    (perElemClasses sL tL aL rL e).scrollHeight = e.scrollHeight := by
  unfold perElemClasses; split <;> rfl

/-- The scroll effect touches no element other than the first target. -/
theorem applyScrollTo_ne (a : Nat) (rest : List Nat) (sv : Option String)
    (d : Dom) (t : Nat) (ht : t ≠ a) :
    applyScrollTo (a :: rest) sv d t = d t := by
  cases sv with
  | none => rfl
  | some s => simp [applyScrollTo, updElem, ht]

/-- `scrollTo="bottom"` sets the first target's vertical offset to its
scroll height. -/
theorem applyScrollTo_bottom_first (a : Nat) (rest : List Nat) (d : Dom) :
    (applyScrollTo (a :: rest) (some "bottom") d a).scrollTop
      = (d a).scrollHeight := by
  simp [applyScrollTo, updElem]

/-- The scroll effect leaves the first target's class list alone. -/
theorem applyScrollTo_first_classes (a : Nat) (rest : List Nat)
    (sv : Option String) (d : Dom) :
    (applyScrollTo (a :: rest) sv d a).classes = (d a).classes := by
  cases sv with
  | none => rfl
  | some s =>
    simp only [applyScrollTo, updElem, if_pos]
    split_ifs <;> rfl

/-! ## C6: scroll applies only to the first target -/

/-- C6.  For every step that reaches its effects with a valid
`scrollTo="bottom"` keyword and a resolved target list of two or more
(distinct) elements, only the first target's scroll offset changes — its
vertical offset becomes its scroll height — while every other element's
scroll offsets are untouched; yet the step's class mutation is applied to
*every* element of the target list. -/
theorem c6_scroll_only_first_target (env : Env) (dom : Dom) (elId : Nat)
    (opts : JsObj) (a b : Nat) (rest : List Nat)
    (hseq : seqCondBlocks env (jsAssign defaultActionOptions opts) = false)
    (hact : actCondSkips env (jsAssign defaultActionOptions opts) = false)
    (hconf : confirmBlocks env (jsAssign defaultActionOptions opts) = false)
    (hcc : classConflictB (jsAssign defaultActionOptions opts) = false)
    (hcm : validContentMethod (jsAssign defaultActionOptions opts) = true)
    (hsv : scrollToOf (jsAssign defaultActionOptions opts) = JsVal.vStr "bottom")
    (htg : (resolveTargets env elId (jsAssign defaultActionOptions opts)).1
      = a :: b :: rest)
    (hnd : (a :: b :: rest).Nodup) :
    (executeAction env dom elId opts).res = DecRes.ret (JsRet.boolean true) ∧
    ((executeAction env dom elId opts).dom a).scrollTop = (dom a).scrollHeight ∧
    (∀ t, t ≠ a →
      ((executeAction env dom elId opts).dom t).scrollTop = (dom t).scrollTop ∧
      ((executeAction env dom elId opts).dom t).scrollLeft = (dom t).scrollLeft) ∧
    (∀ t ∈ a :: b :: rest, ((executeAction env dom elId opts).dom t).classes
      = (perElemClasses (classListsOf (jsAssign defaultActionOptions opts)).2.2.2
          (classListsOf (jsAssign defaultActionOptions opts)).2.2.1
          (classListsOf (jsAssign defaultActionOptions opts)).1
          (classListsOf (jsAssign defaultActionOptions opts)).2.1 (dom t)).classes) := by
  obtain ⟨pre, heq, _⟩ := execDecide_reach_classes env elId opts hseq hact hconf
  have hvalid : validScrollTo (scrollToOf (jsAssign defaultActionOptions opts)) = true := by
    rw [hsv]; rfl
  have hso : scrollOptOf (jsAssign defaultActionOptions opts) = some "bottom" := by
    unfold scrollOptOf; rw [hsv]; rfl
  have hdec : execDecide env elId opts
      = decideTail (jsAssign defaultActionOptions opts) pre
          (resolveTargets env elId (jsAssign defaultActionOptions opts)).1
          (classListsOf (jsAssign defaultActionOptions opts)).2.2.2
          (classListsOf (jsAssign defaultActionOptions opts)).2.2.1
          (classListsOf (jsAssign defaultActionOptions opts)).1
          (classListsOf (jsAssign defaultActionOptions opts)).2.1
          (jsToString (contentMethodOf (jsAssign defaultActionOptions opts)))
          (contentClearOf (jsAssign defaultActionOptions opts))
          (contentSetOf (jsAssign defaultActionOptions opts))
          (contentAppendOf (jsAssign defaultActionOptions opts))
          (contentPrependOf (jsAssign defaultActionOptions opts))
          (scrollOptOf (jsAssign defaultActionOptions opts)) := by
    rw [heq, decideClasses_no_conflict _ _ _ hcc,
      decideContent_valid _ _ _ _ _ _ _ hcm,
      decideScroll_ok _ _ _ _ _ _ _ _ _ _ _ _ (Or.inr hvalid)]
  have hres : (executeAction env dom elId opts).res = DecRes.ret (JsRet.boolean true) := by
    show (execDecide env elId opts).res = _
    rw [hdec]
    exact decideTail_res _ _ _ _ _ _ _ _ _ _ _ _ _
  have hdom : (executeAction env dom elId opts).dom
      = applyScrollTo (a :: b :: rest) (some "bottom")
          (applyToTargets (a :: b :: rest)
            (perElemContent (jsToString (contentMethodOf (jsAssign defaultActionOptions opts)))
              (contentClearOf (jsAssign defaultActionOptions opts))
              (contentSetOf (jsAssign defaultActionOptions opts))
              (contentAppendOf (jsAssign defaultActionOptions opts))
              (contentPrependOf (jsAssign defaultActionOptions opts)))
            (applyToTargets (a :: b :: rest)
              (perElemClasses (classListsOf (jsAssign defaultActionOptions opts)).2.2.2
                (classListsOf (jsAssign defaultActionOptions opts)).2.2.1
                (classListsOf (jsAssign defaultActionOptions opts)).1
                (classListsOf (jsAssign defaultActionOptions opts)).2.1) dom)) := by
    show execApply (execDecide env elId opts) dom = _
    rw [hdec]
    simp only [execApply, decideTail_plan]
    rw [htg, hso]
  have hTop : ∀ t, ((applyToTargets (a :: b :: rest)
        (perElemContent (jsToString (contentMethodOf (jsAssign defaultActionOptions opts)))
          (contentClearOf (jsAssign defaultActionOptions opts))
          (contentSetOf (jsAssign defaultActionOptions opts))
          (contentAppendOf (jsAssign defaultActionOptions opts))
          (contentPrependOf (jsAssign defaultActionOptions opts)))
        (applyToTargets (a :: b :: rest)
          (perElemClasses (classListsOf (jsAssign defaultActionOptions opts)).2.2.2
            (classListsOf (jsAssign defaultActionOptions opts)).2.2.1
            (classListsOf (jsAssign defaultActionOptions opts)).1
            (classListsOf (jsAssign defaultActionOptions opts)).2.1) dom)) t).scrollTop
      = (dom t).scrollTop := by
    intro t
    rw [applyToTargets_get _ _ hnd, applyToTargets_get _ _ hnd]
    split_ifs <;> simp
  have hLeft : ∀ t, ((applyToTargets (a :: b :: rest)
        (perElemContent (jsToString (contentMethodOf (jsAssign defaultActionOptions opts)))
          (contentClearOf (jsAssign defaultActionOptions opts))
          (contentSetOf (jsAssign defaultActionOptions opts))
          (contentAppendOf (jsAssign defaultActionOptions opts))
          (contentPrependOf (jsAssign defaultActionOptions opts)))
        (applyToTargets (a :: b :: rest)
          (perElemClasses (classListsOf (jsAssign defaultActionOptions opts)).2.2.2
            (classListsOf (jsAssign defaultActionOptions opts)).2.2.1
            (classListsOf (jsAssign defaultActionOptions opts)).1
            (classListsOf (jsAssign defaultActionOptions opts)).2.1) dom)) t).scrollLeft
      = (dom t).scrollLeft := by
    intro t
    rw [applyToTargets_get _ _ hnd, applyToTargets_get _ _ hnd]
    split_ifs <;> simp
  have hHeight : ∀ t, ((applyToTargets (a :: b :: rest)
        (perElemContent (jsToString (contentMethodOf (jsAssign defaultActionOptions opts)))
          (contentClearOf (jsAssign defaultActionOptions opts))
          (contentSetOf (jsAssign defaultActionOptions opts))
          (contentAppendOf (jsAssign defaultActionOptions opts))
          (contentPrependOf (jsAssign defaultActionOptions opts)))
        (applyToTargets (a :: b :: rest)
          (perElemClasses (classListsOf (jsAssign defaultActionOptions opts)).2.2.2
            (classListsOf (jsAssign defaultActionOptions opts)).2.2.1
            (classListsOf (jsAssign defaultActionOptions opts)).1
            (classListsOf (jsAssign defaultActionOptions opts)).2.1) dom)) t).scrollHeight
      = (dom t).scrollHeight := by
    intro t
    rw [applyToTargets_get _ _ hnd, applyToTargets_get _ _ hnd]
    split_ifs <;> simp
  have hCls : ∀ t ∈ a :: b :: rest, ((applyToTargets (a :: b :: rest)
        (perElemContent (jsToString (contentMethodOf (jsAssign defaultActionOptions opts)))
          (contentClearOf (jsAssign defaultActionOptions opts))
          (contentSetOf (jsAssign defaultActionOptions opts))
          (contentAppendOf (jsAssign defaultActionOptions opts))
          (contentPrependOf (jsAssign defaultActionOptions opts)))
        (applyToTargets (a :: b :: rest)
          (perElemClasses (classListsOf (jsAssign defaultActionOptions opts)).2.2.2
            (classListsOf (jsAssign defaultActionOptions opts)).2.2.1
            (classListsOf (jsAssign defaultActionOptions opts)).1
            (classListsOf (jsAssign defaultActionOptions opts)).2.1) dom)) t).classes
      = (perElemClasses (classListsOf (jsAssign defaultActionOptions opts)).2.2.2
          (classListsOf (jsAssign defaultActionOptions opts)).2.2.1
          (classListsOf (jsAssign defaultActionOptions opts)).1
          (classListsOf (jsAssign defaultActionOptions opts)).2.1 (dom t)).classes := by
    intro t htm
    rw [applyToTargets_get _ _ hnd, applyToTargets_get _ _ hnd]
    rw [if_pos htm, if_pos htm]
    simp
  refine ⟨hres, ?_, ?_, ?_⟩
  · rw [hdom, applyScrollTo_bottom_first]
    exact hHeight a
  · intro t ht
    rw [hdom, applyScrollTo_ne _ _ _ _ _ ht]
    exact ⟨hTop t, hLeft t⟩
  · intro t htm
    rw [hdom]
    by_cases hta : t = a
    · subst hta
      rw [applyScrollTo_first_classes]
      exact hCls t htm
    · rw [applyScrollTo_ne _ _ _ _ _ hta]
      exact hCls t htm

/-- Witness for C6 at a concrete input: the selector resolves to elements 3
and 4; only element 3 is scrolled. -/
theorem c6_witness :
    scrollToOf (jsAssign defaultActionOptions
        [("target", JsVal.vStr ".t"), ("classAdd", JsVal.vStr "c"),
         ("scrollTo", JsVal.vStr "bottom")]) = JsVal.vStr "bottom" ∧
    ((executeAction witEnv witDom 0
        [("target", JsVal.vStr ".t"), ("classAdd", JsVal.vStr "c"),
         ("scrollTo", JsVal.vStr "bottom")]).dom 3).scrollTop
      = (witDom 3).scrollHeight :=
  ⟨by decide,
   (c6_scroll_only_first_target witEnv witDom 0
      [("target", JsVal.vStr ".t"), ("classAdd", JsVal.vStr "c"),
       ("scrollTo", JsVal.vStr "bottom")] 3 4 []
      (by decide) (by decide) (by decide) (by decide) (by decide) (by decide)
      (by decide) (by decide)).2.1⟩

/-! ## Interpreter-state lemmas -/

/-- Hiding the splash leaves `conditionMet` alone. -/
@[simp] theorem splashHide_conditionMet (s : HS) :
    (splashHide s).conditionMet = s.conditionMet := by
  unfold splashHide; cases s.splash <;> rfl

/-- Hiding the splash leaves the step record alone. -/
@[simp] theorem splashHide_steps (s : HS) : (splashHide s).steps = s.steps := by
  unfold splashHide; cases s.splash <;> rfl

/-- Showing a splash leaves `conditionMet` alone. -/
@[simp] theorem splashShow_conditionMet (v : JsVal) (s : HS) :
    (splashShow v s).conditionMet = s.conditionMet := by
  unfold splashShow; simp

/-- Showing a splash leaves the step record alone. -/
@[simp] theorem splashShow_steps (v : JsVal) (s : HS) :
    (splashShow v s).steps = s.steps := by
  unfold splashShow; simp

/-- A blocked sequence condition makes the whole step return `false`. -/
theorem stepDecision_blocked (env : Env) (attrs : AttrList) (elId : Nat)
    (name : String) (h : seqCondBlocks env (stepExecOpts attrs name) = true) :
    (stepDecision env attrs elId name).res = DecRes.ret (JsRet.boolean false) := by
  have hrw : stepDecision env attrs elId name
      = decideCondition env (stepExecOpts attrs name)
          (resolveTargets env elId (stepExecOpts attrs name)).2
          (resolveTargets env elId (stepExecOpts attrs name)).1 := rfl
  rw [hrw]
  exact (decideCondition_blocked _ _ _ _ h).1

/-- A cancelled confirmation makes the whole step return `false`. -/
theorem stepDecision_cancelled (env : Env) (attrs : AttrList) (elId : Nat)
    (name : String)
    (h1 : seqCondBlocks env (stepExecOpts attrs name) = false)
    (h2 : actCondSkips env (stepExecOpts attrs name) = false)
    (h3 : confirmBlocks env (stepExecOpts attrs name) = true) :
    (stepDecision env attrs elId name).res = DecRes.ret (JsRet.boolean false) := by
  have hrw : stepDecision env attrs elId name
      = decideCondition env (stepExecOpts attrs name)
          (resolveTargets env elId (stepExecOpts attrs name)).2
          (resolveTargets env elId (stepExecOpts attrs name)).1 := rfl
  rw [hrw, decideCondition_not_blocked _ _ _ _ h1,
    decideCondAction_not_skipped _ _ _ _ h2]
  exact (decideConfirm_cancelled _ _ _ _ h3).1

/-- A falsy (or throwing) step-level condition makes the step return `true`
with no effect payload; its trace holds only selector warnings and its own
error log. -/
theorem stepDecision_skips (env : Env) (attrs : AttrList) (elId : Nat)
    (name : String)
    (h1 : seqCondBlocks env (stepExecOpts attrs name) = false)
    (h2 : actCondSkips env (stepExecOpts attrs name) = true) :
    (stepDecision env attrs elId name).res = DecRes.ret (JsRet.boolean true) ∧
    (stepDecision env attrs elId name).plan = none ∧
    ∀ e ∈ (stepDecision env attrs elId name).tr,
      (∃ s, e = Ev.warnSelector s) ∨ (∃ s, e = Ev.errConditionAction s) := by
  have hrw : stepDecision env attrs elId name
      = decideCondition env (stepExecOpts attrs name)
          (resolveTargets env elId (stepExecOpts attrs name)).2
          (resolveTargets env elId (stepExecOpts attrs name)).1 := rfl
  rw [hrw, decideCondition_not_blocked _ _ _ _ h1]
  obtain ⟨extra, heq, hex⟩ := decideCondAction_skipped env (stepExecOpts attrs name)
    (resolveTargets env elId (stepExecOpts attrs name)).2
    (resolveTargets env elId (stepExecOpts attrs name)).1 h2
  rw [heq]
  refine ⟨rfl, rfl, ?_⟩
  intro e he
  rcases List.mem_append.mp he with he | he
  · exact Or.inl (resolveTargets_tr _ _ _ e he)
  · exact Or.inr (hex e he)

/-- An invalid content accessor makes the step return `undefined`. -/
theorem stepDecision_undef (env : Env) (attrs : AttrList) (elId : Nat)
    (name : String)
    (h1 : seqCondBlocks env (stepExecOpts attrs name) = false)
    (h2 : actCondSkips env (stepExecOpts attrs name) = false)
    (h3 : confirmBlocks env (stepExecOpts attrs name) = false)
    (h4 : classConflictB (stepExecOpts attrs name) = false)
    (h5 : validContentMethod (stepExecOpts attrs name) = false) :
    (stepDecision env attrs elId name).res = DecRes.ret JsRet.undef := by
  obtain ⟨pre, heq, _⟩ := execDecide_reach_classes env elId (stepOpts attrs name) h1 h2 h3
  have h4x : classConflictB (jsAssign defaultActionOptions (stepOpts attrs name)) = false := h4
  have h5x : validContentMethod (jsAssign defaultActionOptions (stepOpts attrs name)) = false := h5
  show (execDecide env elId (stepOpts attrs name)).res = _
  rw [heq, decideClasses_no_conflict _ _ _ h4x, decideContent_invalid _ _ _ _ _ _ _ h5x]

/-- Running the first (unsuffixed) step when it is present and its promise
settles with value `r`: the run records step `num 0` and sets
`conditionMet` to `r`'s truthiness. -/
theorem handlerFirst_run (env : Env) (attrs : AttrList) (elId : Nat)
    (pfx : String) (s : HS)
    (hpres : stepPresent attrs (stepName pfx 0) = true)
    (r : JsRet)
    (hres : (stepDecision env attrs elId (stepName pfx 0)).res = DecRes.ret r) :
    ∃ s', handlerFirst env attrs elId pfx s = HRes.ok s' ∧
      s'.conditionMet = r.truthy ∧ s'.steps = s.steps ++ [StepId.num 0] := by
  simp only [handlerFirst, runStepInto, hpres, if_true, hres]
  split
  · exact ⟨_, rfl, by simp, by simp⟩
  · exact ⟨_, rfl, by simp, by simp⟩

set_option maxHeartbeats 2000000 in
/-- The numbered-step loop exits immediately once `conditionMet` is false. -/
theorem handlerLoop_stop (env : Env) (attrs : AttrList) (elId : Nat)
    (pfx : String) (fuel i : Nat) (s : HS) (h : s.conditionMet = false) :
    handlerLoop env attrs elId pfx fuel i s = HRes.ok s := by
  cases fuel with
  | zero => rfl
  | succ f =>
    rw [handlerLoop, if_neg (by simp [h])]

/-- The loop body for a present step whose promise settles with value `r`:
the run records `num i`, updates `conditionMet`, and continues at `i + 1`. -/
theorem handlerLoop_body_ret (env : Env) (attrs : AttrList) (elId : Nat)
    (pfx : String) (f i : Nat) (s : HS)
    (hcm : s.conditionMet = true)
    (hp : stepPresent attrs (stepName pfx i) = true)
    (r : JsRet)
    (hr : (stepDecision env attrs elId (stepName pfx i)).res = DecRes.ret r) :
    ∃ s2, handlerLoop env attrs elId pfx (f + 1) i s
        = handlerLoop env attrs elId pfx f (i + 1) s2 ∧
      s2.conditionMet = r.truthy ∧ s2.steps = s.steps ++ [StepId.num i] := by
  simp only [handlerLoop, runStepInto, hcm, hp, if_true, hr]
  refine ⟨_, rfl, ?_, ?_⟩ <;> split_ifs <;> simp

/-- The loop body for an absent step: the loop breaks. -/
theorem handlerLoop_body_absent (env : Env) (attrs : AttrList) (elId : Nat)
    (pfx : String) (f i : Nat) (s : HS)
    (hcm : s.conditionMet = true)
    (hp : stepPresent attrs (stepName pfx i) = false) :
    handlerLoop env attrs elId pfx (f + 1) i s = HRes.ok s := by
  rw [handlerLoop, if_pos (by simp [hcm]), if_neg (by simp [hp])]

/-- Gating run of the numbered loop: steps `i, …, k - 1` are present and
truthy, step `k` is present and settles falsy (`false` or `undefined`).
The loop runs exactly steps `i … k`, ends with `conditionMet` false, and
stays on the `ok` path. -/
theorem handlerLoop_gate (env : Env) (attrs : AttrList) (elId : Nat)
    (pfx : String) (k : Nat)
    (hpres : ∀ j, 1 ≤ j → j ≤ k → stepPresent attrs (stepName pfx j) = true)
    (htrue : ∀ j, 1 ≤ j → j < k → (stepDecision env attrs elId (stepName pfx j)).res
      = DecRes.ret (JsRet.boolean true))
    (rk : JsRet)
    (hrk : (stepDecision env attrs elId (stepName pfx k)).res = DecRes.ret rk)
    (hfalsy : rk.truthy = false) :
    ∀ fuel i s, 1 ≤ i → i ≤ k → s.conditionMet = true → k < i + fuel →
      ∃ s', handlerLoop env attrs elId pfx fuel i s = HRes.ok s' ∧
        s'.conditionMet = false ∧
        s'.steps = s.steps ++ (List.range' i (k + 1 - i)).map StepId.num := by
  intro fuel
  induction fuel with
  | zero => intro i s h1 h2 h3 h4; omega
  | succ f ih =>
    intro i s h1 h2 h3 h4
    by_cases hik : i = k
    · subst hik
      obtain ⟨s2, heq, hcm2, hst2⟩ :=
        handlerLoop_body_ret env attrs elId pfx f i s h3 (hpres i h1 h2) rk hrk
      rw [heq, handlerLoop_stop env attrs elId pfx f (i + 1) s2 (by rw [hcm2, hfalsy])]
      refine ⟨s2, rfl, by rw [hcm2, hfalsy], ?_⟩
      rw [hst2]
      have h5 : i + 1 - i = 1 := by omega
      rw [h5]
      simp [List.range'_succ]
    · have hlt : i < k := Nat.lt_of_le_of_ne h2 hik
      obtain ⟨s2, heq, hcm2, hst2⟩ :=
        handlerLoop_body_ret env attrs elId pfx f i s h3 (hpres i h1 h2)
          (JsRet.boolean true) (htrue i h1 hlt)
      rw [heq]
      obtain ⟨s', hs'eq, hs'cm, hs'steps⟩ := ih (i + 1) s2 (by omega) (by omega)
        (by rw [hcm2]; rfl) (by omega)
      refine ⟨s', hs'eq, hs'cm, ?_⟩
      rw [hs'steps, hst2]
      have h5 : k + 1 - i = (k + 1 - (i + 1)) + 1 := by omega
      rw [h5, List.range'_succ]
      simp

/-- Complete run of the numbered loop: steps `i … m` are present and
truthy, step `m + 1` is absent.  The loop runs exactly steps `i … m` and
ends with `conditionMet` still true. -/
theorem handlerLoop_complete (env : Env) (attrs : AttrList) (elId : Nat)
    (pfx : String) (m : Nat)
    (hpres : ∀ j, 1 ≤ j → j ≤ m → stepPresent attrs (stepName pfx j) = true)
    (habs : stepPresent attrs (stepName pfx (m + 1)) = false)
    (htrue : ∀ j, 1 ≤ j → j ≤ m → (stepDecision env attrs elId (stepName pfx j)).res
      = DecRes.ret (JsRet.boolean true)) :
    ∀ fuel i s, 1 ≤ i → i ≤ m + 1 → s.conditionMet = true → m + 1 < i + fuel →
      ∃ s', handlerLoop env attrs elId pfx fuel i s = HRes.ok s' ∧
        s'.conditionMet = true ∧
        s'.steps = s.steps ++ (List.range' i (m + 1 - i)).map StepId.num := by
  intro fuel
  induction fuel with
  | zero => intro i s h1 h2 h3 h4; omega
  | succ f ih =>
    intro i s h1 h2 h3 h4
    by_cases him : i = m + 1
    · subst him
      rw [handlerLoop_body_absent env attrs elId pfx f (m + 1) s h3 habs]
      refine ⟨s, rfl, h3, ?_⟩
      simp
    · have hle : i ≤ m := by omega
      obtain ⟨s2, heq, hcm2, hst2⟩ :=
        handlerLoop_body_ret env attrs elId pfx f i s h3 (hpres i h1 hle)
          (JsRet.boolean true) (htrue i h1 hle)
      rw [heq]
      obtain ⟨s', hs'eq, hs'cm, hs'steps⟩ := ih (i + 1) s2 (by omega) (by omega)
        (by rw [hcm2]; rfl) (by omega)
      refine ⟨s', hs'eq, hs'cm, ?_⟩
      rw [hs'steps, hst2]
      have h5 : m + 1 - i = (m + 1 - (i + 1)) + 1 := by omega
      rw [h5, List.range'_succ]
      simp

/-- A gated-off run never attempts the `-last` step. -/
theorem handlerLast_gated (env : Env) (attrs : AttrList) (elId : Nat)
    (pfx : String) (s : HS) (h : s.conditionMet = false) :
    handlerLast env attrs elId pfx s = HRes.ok s := by
  simp [handlerLast, h]

/-- With `conditionMet` still true and a non-rejecting `-last` step, the
`-last` phase records the step (when present) and leaves `conditionMet`
true. -/
theorem handlerLast_run (env : Env) (attrs : AttrList) (elId : Nat)
    (pfx : String) (s : HS) (hcm : s.conditionMet = true)
    (hnt : (stepDecision env attrs elId (pfx ++ "-last")).res ≠ DecRes.thrown) :
    ∃ s', handlerLast env attrs elId pfx s = HRes.ok s' ∧
      s'.conditionMet = true ∧
      s'.steps = s.steps
        ++ (if stepPresent attrs (pfx ++ "-last") = true then [StepId.last] else []) := by
  by_cases hp : stepPresent attrs (pfx ++ "-last") = true
  · cases hres : (stepDecision env attrs elId (pfx ++ "-last")).res with
    | thrown => exact absurd hres hnt
    | ret r =>
      simp only [handlerLast, runStepInto, hcm, hp, if_true, hres]
      refine ⟨_, rfl, ?_, ?_⟩ <;> split_ifs <;> simp [hcm, hp]
  · refine ⟨s, ?_, hcm, by simp [hp]⟩
    simp [handlerLast, hcm, hp]

/-- The `-finally` phase: always attempted; whether its own promise settles
or rejects, the step is recorded (when present) and `conditionMet` is
unchanged. -/
theorem handlerFinally_spec (env : Env) (attrs : AttrList) (elId : Nat)
    (pfx : String) (s : HS) :
    ∃ s', (handlerFinally env attrs elId pfx s = HRes.ok s' ∨
           handlerFinally env attrs elId pfx s = HRes.thrownAt s') ∧
      s'.conditionMet = s.conditionMet ∧
      s'.steps = s.steps
        ++ (if stepPresent attrs (pfx ++ "-finally") = true then [StepId.fin] else []) := by
  by_cases hp : stepPresent attrs (pfx ++ "-finally") = true
  · cases hres : (stepDecision env attrs elId (pfx ++ "-finally")).res with
    | thrown =>
      refine ⟨(runStepInto env attrs elId (pfx ++ "-finally") StepId.fin s).2,
        Or.inr ?_, by simp [runStepInto], by simp [runStepInto, hp]⟩
      simp only [handlerFinally, runStepInto, hp, if_true, hres]
    | ret r =>
      simp only [handlerFinally, runStepInto, hp, if_true, hres]
      refine ⟨_, Or.inl rfl, ?_, ?_⟩ <;> split_ifs <;> simp [hp]
  · refine ⟨s, Or.inl ?_, rfl, by simp [hp]⟩
    simp [handlerFinally, hp]

/-- A gated run of the whole handler: the first step and steps `1 … k - 1`
are present and settle `true`, step `k` is present and settles falsy.
Exactly steps `0 … k` (plus `-finally`, when present) are invoked, and the
native handler is not replayed. -/
theorem actionHandler_gated (env : Env) (attrs : AttrList) (elId : Nat)
    (pfx : String) (native : Option Nat) (dom : Dom) (k : Nat)
    (hk : k ≤ attrs.length)
    (hpres : ∀ j, j ≤ k → stepPresent attrs (stepName pfx j) = true)
    (hbefore : ∀ j, j < k → (stepDecision env attrs elId (stepName pfx j)).res
      = DecRes.ret (JsRet.boolean true))
    (rk : JsRet)
    (hrk : (stepDecision env attrs elId (stepName pfx k)).res = DecRes.ret rk)
    (hfalsy : rk.truthy = false) :
    (actionHandler env attrs elId pfx native dom).nativeCalled = false ∧
    (actionHandler env attrs elId pfx native dom).state.steps
      = (List.range' 0 (k + 1)).map StepId.num
        ++ (if stepPresent attrs (pfx ++ "-finally") = true then [StepId.fin] else []) := by
  cases k with
  | zero =>
    obtain ⟨s1, he1, hcm1, hst1⟩ := handlerFirst_run env attrs elId pfx
      ⟨true, dom, [], [], none⟩ (hpres 0 (Nat.le_refl 0)) rk hrk
    have hcm1f : s1.conditionMet = false := by rw [hcm1, hfalsy]
    have hloop := handlerLoop_stop env attrs elId pfx (attrs.length + 1) 1 s1 hcm1f
    have hlast := handlerLast_gated env attrs elId pfx s1 hcm1f
    obtain ⟨s2, hor, hcm2, hst2⟩ := handlerFinally_spec env attrs elId pfx s1
    rcases hor with hf | hf
    · simp only [actionHandler, he1, hloop, hlast, hf]
      have hcn : (s2.conditionMet && native.isSome) = false := by
        rw [hcm2, hcm1f]; rfl
      simp only [hcn, if_false]
      cases hsp : s2.splash <;>
        simp [hsp, hst2, hst1, hcm1f, List.range'_succ]
    · simp only [actionHandler, he1, hloop, hlast, hf]
      simp [hst2, hst1, List.range'_succ]
  | succ kk =>
    obtain ⟨s1, he1, hcm1, hst1⟩ := handlerFirst_run env attrs elId pfx
      ⟨true, dom, [], [], none⟩ (hpres 0 (Nat.zero_le _)) (JsRet.boolean true)
      (hbefore 0 (Nat.succ_pos kk))
    have hcm1t : s1.conditionMet = true := by rw [hcm1]; rfl
    obtain ⟨s2, he2, hcm2, hst2⟩ := handlerLoop_gate env attrs elId pfx (kk + 1)
      (fun j h1 h2 => hpres j h2)
      (fun j h1 h2 => hbefore j h2)
      rk hrk hfalsy (attrs.length + 1) 1 s1 (Nat.le_refl 1) (by omega) hcm1t
      (by omega)
    have hlast := handlerLast_gated env attrs elId pfx s2 hcm2
    obtain ⟨s3, hor, hcm3, hst3⟩ := handlerFinally_spec env attrs elId pfx s2
    have hsteps2 : s2.steps = (List.range' 0 (kk + 1 + 1)).map StepId.num := by
      rw [hst2, hst1, List.range'_succ]
      simp
    rcases hor with hf | hf
    · simp only [actionHandler, he1, he2, hlast, hf]
      have hcn : (s3.conditionMet && native.isSome) = false := by
        rw [hcm3, hcm2]; rfl
      simp only [hcn, if_false]
      cases hsp : s3.splash <;> simp [hsp, hst3, hsteps2]
    · simp only [actionHandler, he1, he2, hlast, hf]
      simp [hst3, hsteps2]

/-- The `-finally` phase with a non-rejecting step stays on the `ok` path. -/
theorem handlerFinally_ok (env : Env) (attrs : AttrList) (elId : Nat)
    (pfx : String) (s : HS)
    (hnt : (stepDecision env attrs elId (pfx ++ "-finally")).res ≠ DecRes.thrown) :
    ∃ s', handlerFinally env attrs elId pfx s = HRes.ok s' ∧
      s'.conditionMet = s.conditionMet ∧
      s'.steps = s.steps
        ++ (if stepPresent attrs (pfx ++ "-finally") = true then [StepId.fin] else []) := by
  by_cases hp : stepPresent attrs (pfx ++ "-finally") = true
  · cases hres : (stepDecision env attrs elId (pfx ++ "-finally")).res with
    | thrown => exact absurd hres hnt
    | ret r =>
      simp only [handlerFinally, runStepInto, hp, if_true, hres]
      refine ⟨_, rfl, ?_, ?_⟩ <;> split_ifs <;> simp [hp]
  · refine ⟨s, ?_, rfl, by simp [hp]⟩
    simp [handlerFinally, hp]

/-- A fully completed run of the whole handler: steps `0 … m` are present
and settle `true`, step `m + 1` is absent, and the `-last` and `-finally`
steps do not reject.  Every step (and `-last`/`-finally`, when present) is
invoked, the native handler is replayed exactly when one was recorded, and
the listener body runs to completion. -/
theorem actionHandler_complete (env : Env) (attrs : AttrList) (elId : Nat)
    (pfx : String) (native : Option Nat) (dom : Dom) (m : Nat)
    (hm : m ≤ attrs.length)
    (hpres : ∀ j, j ≤ m → stepPresent attrs (stepName pfx j) = true)
    (habs : stepPresent attrs (stepName pfx (m + 1)) = false)
    (htrue : ∀ j, j ≤ m → (stepDecision env attrs elId (stepName pfx j)).res
      = DecRes.ret (JsRet.boolean true))
    (hlastnt : (stepDecision env attrs elId (pfx ++ "-last")).res ≠ DecRes.thrown)
    (hfinnt : (stepDecision env attrs elId (pfx ++ "-finally")).res ≠ DecRes.thrown) :
    (actionHandler env attrs elId pfx native dom).nativeCalled = native.isSome ∧
    (actionHandler env attrs elId pfx native dom).completed = true ∧
    (actionHandler env attrs elId pfx native dom).state.steps
      = (List.range' 0 (m + 1)).map StepId.num
        ++ (if stepPresent attrs (pfx ++ "-last") = true then [StepId.last] else [])
        ++ (if stepPresent attrs (pfx ++ "-finally") = true then [StepId.fin] else []) := by
  obtain ⟨s1, he1, hcm1, hst1⟩ := handlerFirst_run env attrs elId pfx
    ⟨true, dom, [], [], none⟩ (hpres 0 (Nat.zero_le _)) (JsRet.boolean true)
    (htrue 0 (Nat.zero_le _))
  have hcm1t : s1.conditionMet = true := by rw [hcm1]; rfl
  obtain ⟨s2, he2, hcm2, hst2⟩ := handlerLoop_complete env attrs elId pfx m
    (fun j h1 h2 => hpres j h2) habs (fun j h1 h2 => htrue j h2)
    (attrs.length + 1) 1 s1 (Nat.le_refl 1) (by omega) hcm1t (by omega)
  obtain ⟨s3, he3, hcm3, hst3⟩ := handlerLast_run env attrs elId pfx s2 hcm2 hlastnt
  obtain ⟨s4, he4, hcm4, hst4⟩ := handlerFinally_ok env attrs elId pfx s3 hfinnt
  have hsteps2 : s2.steps = (List.range' 0 (m + 1)).map StepId.num := by
    rw [hst2, hst1, List.range'_succ]
    simp
  have hcm4t : s4.conditionMet = true := by rw [hcm4, hcm3]
  have hcn : (s4.conditionMet && native.isSome) = native.isSome := by
    rw [hcm4t, Bool.true_and]
  simp only [actionHandler, he1, he2, he3, he4, hcn]
  refine ⟨?_, ?_, ?_⟩
  · cases hni : native.isSome <;> cases hsp : s4.splash <;> simp [hni, hsp]
  · cases hni : native.isSome <;> cases hsp : s4.splash <;> simp [hni, hsp]
  · cases hni : native.isSome <;> cases hsp : s4.splash <;>
      simp [hni, hsp, hst4, hst3, hsteps2, List.append_assoc]

/-! ## C1: a sequence-level gate suppresses the rest of the sequence -/

/-- C1.  In a triggered sequence whose steps up to `k - 1` ran and settled
truthy, if step `k`'s sequence-level `condition` evaluates false (or its
evaluation throws), or the user cancels step `k`'s confirmation dialog,
then no numbered step after `k`, nor the `-last` step, nor the
native-handler replay executes, while the `-finally` step (when present)
still executes.  (`k ≤ attrs.length` is forced by the presence of the `k`
distinct numbered steps, each of which owns at least one attribute.) -/
theorem c1_condition_gate_suppresses_sequence (env : Env) (attrs : AttrList)
    (elId : Nat) (pfx : String) (native : Option Nat) (dom : Dom) (k : Nat)
    (hk : k ≤ attrs.length)
    (hpres : ∀ j, j ≤ k → stepPresent attrs (stepName pfx j) = true)
    (hbefore : ∀ j, j < k → (stepDecision env attrs elId (stepName pfx j)).res
      = DecRes.ret (JsRet.boolean true))
    (hgate : seqCondBlocks env (stepExecOpts attrs (stepName pfx k)) = true ∨
      (seqCondBlocks env (stepExecOpts attrs (stepName pfx k)) = false ∧
       actCondSkips env (stepExecOpts attrs (stepName pfx k)) = false ∧
       confirmBlocks env (stepExecOpts attrs (stepName pfx k)) = true)) :
    (∀ j, k < j →
      StepId.num j ∉ (actionHandler env attrs elId pfx native dom).state.steps) ∧
    StepId.last ∉ (actionHandler env attrs elId pfx native dom).state.steps ∧
    (actionHandler env attrs elId pfx native dom).nativeCalled = false ∧
    (stepPresent attrs (pfx ++ "-finally") = true →
      StepId.fin ∈ (actionHandler env attrs elId pfx native dom).state.steps) := by
  have hkres : (stepDecision env attrs elId (stepName pfx k)).res
      = DecRes.ret (JsRet.boolean false) := by
    rcases hgate with h | ⟨h1, h2, h3⟩
    · exact stepDecision_blocked env attrs elId _ h
    · exact stepDecision_cancelled env attrs elId _ h1 h2 h3
  obtain ⟨hnat, hsteps⟩ := actionHandler_gated env attrs elId pfx native dom k
    hk hpres hbefore (JsRet.boolean false) hkres rfl
  refine ⟨?_, ?_, hnat, ?_⟩
  · intro j hj hmem
    rw [hsteps] at hmem
    rcases List.mem_append.mp hmem with hm | hm
    · rcases List.mem_map.mp hm with ⟨x, hx, hxe⟩
      obtain ⟨hx1, hx2⟩ := List.mem_range'_1.mp hx
      injection hxe with hxj
      omega
    · split at hm <;> simp at hm
  · intro hmem
    rw [hsteps] at hmem
    rcases List.mem_append.mp hmem with hm | hm
    · rcases List.mem_map.mp hm with ⟨x, hx, hxe⟩
      cases hxe
    · split at hm <;> simp at hm
  · intro hfin
    rw [hsteps, if_pos hfin]
    simp

/-- Witness for C1 at a concrete input: `first` has no gating attributes,
step 1's condition "F" evaluates false, a `-finally` step exists, and a
native handler is recorded; the native replay is suppressed. -/
theorem c1_witness :
    seqCondBlocks witEnv (stepExecOpts
        [("data-ca-class-add", "x"), ("data-ca-1-condition", "F"),
         ("data-ca-finally-class-add", "y")] (stepName "ca" 1)) = true ∧
    (actionHandler witEnv
        [("data-ca-class-add", "x"), ("data-ca-1-condition", "F"),
         ("data-ca-finally-class-add", "y")] 0 "ca" (some 9) witDom).nativeCalled
      = false :=
  ⟨by decide,
   (c1_condition_gate_suppresses_sequence witEnv
      [("data-ca-class-add", "x"), ("data-ca-1-condition", "F"),
       ("data-ca-finally-class-add", "y")] 0 "ca" (some 9) witDom 1
      (by decide) (by decide) (by decide) (Or.inl (by decide))).2.2.1⟩

/-! ## C9: an invalid content accessor gates the whole sequence -/

/-- C9.  In a triggered sequence whose steps up to `k - 1` ran and settled
truthy, if step `k` reaches its content stage (conditions pass, confirm
accepted, no class conflict) with an invalid content accessor, then
`executeAction` returns `undefined` rather than a boolean, and the
interpreter's loop treats the falsy result as a sequence-level gate: every
numbered step after `k`, the `-last` step and the native-handler replay are
suppressed, while `-finally` (when present) still runs. -/
theorem c9_invalid_accessor_gates_sequence (env : Env) (attrs : AttrList)
    (elId : Nat) (pfx : String) (native : Option Nat) (dom : Dom) (k : Nat)
    (hk : k ≤ attrs.length)
    (hpres : ∀ j, j ≤ k → stepPresent attrs (stepName pfx j) = true)
    (hbefore : ∀ j, j < k → (stepDecision env attrs elId (stepName pfx j)).res
      = DecRes.ret (JsRet.boolean true))
    (h1 : seqCondBlocks env (stepExecOpts attrs (stepName pfx k)) = false)
    (h2 : actCondSkips env (stepExecOpts attrs (stepName pfx k)) = false)
    (h3 : confirmBlocks env (stepExecOpts attrs (stepName pfx k)) = false)
    (h4 : classConflictB (stepExecOpts attrs (stepName pfx k)) = false)
    (h5 : validContentMethod (stepExecOpts attrs (stepName pfx k)) = false) :
    (stepDecision env attrs elId (stepName pfx k)).res = DecRes.ret JsRet.undef ∧
    (∀ j, k < j →
      StepId.num j ∉ (actionHandler env attrs elId pfx native dom).state.steps) ∧
    StepId.last ∉ (actionHandler env attrs elId pfx native dom).state.steps ∧
    (actionHandler env attrs elId pfx native dom).nativeCalled = false ∧
    (stepPresent attrs (pfx ++ "-finally") = true →
      StepId.fin ∈ (actionHandler env attrs elId pfx native dom).state.steps) := by
  have hkres : (stepDecision env attrs elId (stepName pfx k)).res
      = DecRes.ret JsRet.undef :=
    stepDecision_undef env attrs elId _ h1 h2 h3 h4 h5
  obtain ⟨hnat, hsteps⟩ := actionHandler_gated env attrs elId pfx native dom k
    hk hpres hbefore JsRet.undef hkres rfl
  refine ⟨hkres, ?_, ?_, hnat, ?_⟩
  · intro j hj hmem
    rw [hsteps] at hmem
    rcases List.mem_append.mp hmem with hm | hm
    · rcases List.mem_map.mp hm with ⟨x, hx, hxe⟩
      obtain ⟨hx1, hx2⟩ := List.mem_range'_1.mp hx
      injection hxe with hxj
      omega
    · split at hm <;> simp at hm
  · intro hmem
    rw [hsteps] at hmem
    rcases List.mem_append.mp hmem with hm | hm
    · rcases List.mem_map.mp hm with ⟨x, hx, hxe⟩
      cases hxe
    · split at hm <;> simp at hm
  · intro hfin
    rw [hsteps, if_pos hfin]
    simp

/-- Witness for C9 at a concrete input: step 1 carries
`data-ca-1-content-method="bogus"`. -/
theorem c9_witness :
    validContentMethod (stepExecOpts
        [("data-ca-class-add", "x"), ("data-ca-1-content-method", "bogus"),
         ("data-ca-finally-class-add", "y")] (stepName "ca" 1)) = false ∧
    (stepDecision witEnv
        [("data-ca-class-add", "x"), ("data-ca-1-content-method", "bogus"),
         ("data-ca-finally-class-add", "y")] 0 (stepName "ca" 1)).res
      = DecRes.ret JsRet.undef :=
  ⟨by decide,
   (c9_invalid_accessor_gates_sequence witEnv
      [("data-ca-class-add", "x"), ("data-ca-1-content-method", "bogus"),
       ("data-ca-finally-class-add", "y")] 0 "ca" (some 9) witDom 1
      (by decide) (by decide) (by decide) (by decide) (by decide) (by decide)
      (by decide) (by decide)).1⟩

/-! ## C2: a step-level condition skips only that step -/

/-- C2.  In a triggered sequence of steps `0 … m` (step `m + 1` absent)
where step `k`'s step-level `conditionAction` evaluates false (or its
evaluation throws) while its sequence-level condition passes, and every
other step settles truthy: step `k` itself performs none of its effects —
`executeAction` returns `true` with an empty effect payload, leaves any
document unchanged, and its trace holds nothing but selector warnings and
its own condition-error log — yet the sequence continues as if the step had
not existed: every step `0 … m` is invoked, `-last` (when present) is
invoked, `-finally` (when present) is invoked, the native handler is
replayed exactly when one was recorded, and the listener body completes. -/
theorem c2_condition_action_skips_only_step (env : Env) (attrs : AttrList)
    (elId : Nat) (pfx : String) (native : Option Nat) (dom : Dom) (k m : Nat)
    (hkm : k ≤ m) (hm : m ≤ attrs.length)
    (hpres : ∀ j, j ≤ m → stepPresent attrs (stepName pfx j) = true)
    (habs : stepPresent attrs (stepName pfx (m + 1)) = false)
    (htrue : ∀ j, j ≤ m → j ≠ k → (stepDecision env attrs elId (stepName pfx j)).res
      = DecRes.ret (JsRet.boolean true))
    (hseqk : seqCondBlocks env (stepExecOpts attrs (stepName pfx k)) = false)
    (hskip : actCondSkips env (stepExecOpts attrs (stepName pfx k)) = true)
    (hlastnt : (stepDecision env attrs elId (pfx ++ "-last")).res ≠ DecRes.thrown)
    (hfinnt : (stepDecision env attrs elId (pfx ++ "-finally")).res ≠ DecRes.thrown) :
    (stepDecision env attrs elId (stepName pfx k)).res
      = DecRes.ret (JsRet.boolean true) ∧
    (stepDecision env attrs elId (stepName pfx k)).plan = none ∧
    (∀ d : Dom, (executeAction env d elId (stepOpts attrs (stepName pfx k))).dom = d) ∧
    (∀ e ∈ (stepDecision env attrs elId (stepName pfx k)).tr,
      (∃ s, e = Ev.warnSelector s) ∨ (∃ s, e = Ev.errConditionAction s)) ∧
    (∀ j, j ≤ m →
      StepId.num j ∈ (actionHandler env attrs elId pfx native dom).state.steps) ∧
    (stepPresent attrs (pfx ++ "-last") = true →
      StepId.last ∈ (actionHandler env attrs elId pfx native dom).state.steps) ∧
    (stepPresent attrs (pfx ++ "-finally") = true →
      StepId.fin ∈ (actionHandler env attrs elId pfx native dom).state.steps) ∧
    (actionHandler env attrs elId pfx native dom).nativeCalled = native.isSome ∧
    (actionHandler env attrs elId pfx native dom).completed = true := by
  obtain ⟨hres, hplan, htr⟩ := stepDecision_skips env attrs elId (stepName pfx k)
    hseqk hskip
  have htrue2 : ∀ j, j ≤ m → (stepDecision env attrs elId (stepName pfx j)).res
      = DecRes.ret (JsRet.boolean true) := by
    intro j hj
    by_cases hjk : j = k
    · rw [hjk]; exact hres
    · exact htrue j hj hjk
  obtain ⟨hnat, hcomp, hsteps⟩ := actionHandler_complete env attrs elId pfx native
    dom m hm hpres habs htrue2 hlastnt hfinnt
  refine ⟨hres, hplan, ?_, htr, ?_, ?_, ?_, hnat, hcomp⟩
  · intro d
    show execApply (stepDecision env attrs elId (stepName pfx k)) d = d
    simp [execApply, hplan]
  · intro j hj
    rw [hsteps]
    refine List.mem_append.mpr (Or.inl (List.mem_append.mpr (Or.inl ?_)))
    exact List.mem_map.mpr ⟨j, List.mem_range'_1.mpr ⟨Nat.zero_le j, by omega⟩, rfl⟩
  · intro hp
    rw [hsteps, if_pos hp]
    simp
  · intro hp
    rw [hsteps, if_pos hp]
    simp

/-- Witness for C2 at a concrete input: step 1's `conditionAction` "F"
evaluates false, step 2 still runs, `-last` runs and the native handler is
replayed. -/
theorem c2_witness :
    actCondSkips witEnv (stepExecOpts
        [("data-ca-class-add", "x"), ("data-ca-1-condition-action", "F"),
         ("data-ca-1-class-add", "y"), ("data-ca-2-class-add", "z"),
         ("data-ca-last-class-add", "L"), ("data-ca-finally-class-add", "fin")]
        (stepName "ca" 1)) = true ∧
    (actionHandler witEnv
        [("data-ca-class-add", "x"), ("data-ca-1-condition-action", "F"),
         ("data-ca-1-class-add", "y"), ("data-ca-2-class-add", "z"),
         ("data-ca-last-class-add", "L"), ("data-ca-finally-class-add", "fin")]
        0 "ca" (some 9) witDom).nativeCalled = (some 9 : Option Nat).isSome :=
  ⟨by decide,
   (c2_condition_action_skips_only_step witEnv
      [("data-ca-class-add", "x"), ("data-ca-1-condition-action", "F"),
       ("data-ca-1-class-add", "y"), ("data-ca-2-class-add", "z"),
       ("data-ca-last-class-add", "L"), ("data-ca-finally-class-add", "fin")]
      0 "ca" (some 9) witDom 1 2
      (by decide) (by decide) (by decide) (by decide) (by decide) (by decide)
      (by decide) (by decide) (by decide)).2.2.2.2.2.2.2.1⟩
